import Mathlib

/-!
Shallow embedding of the order-management backend (FastAPI + SQLAlchemy
services under src/app) and proofs about its settlement, inventory,
order-aggregate and product-history behaviour.

Modelling conventions:
* The persistent store is a `DB` record of lists of rows.  Lists are kept
  newest-last for tables (insertion order = primary-key order) and
  newest-first for the history table (so that the source's
  `ORDER BY created_at DESC LIMIT 1` is `List.head?` of the filtered list).
* Every service entry point returns an `ExecR`: an optional domain error
  together with the COMMITTED database state.  The source runs each request
  in one SQLAlchemy session that is closed at the end of the request, so
  changes that were never committed are rolled back; an operation that
  raises before its first commit therefore returns the input state.
  Crucially, `ProductService.update_product` issues its own
  `session.commit()`, so when it is invoked in a loop by
  `OrderService._reduce_product_quantities` each iteration's effect is
  committed individually.
* Monetary values (SQL Numeric(10,2), Python float/Decimal) are modelled as
  rationals; quantities (SQL Integer) as integers, so that the ge-0
  pydantic checks are genuine checks.
* Row ids come from one global counter `nextId`; the source uses one
  database sequence per table, and nothing observed by the spec depends on
  ids beyond their uniqueness and freshness.
* The base columns id/created_at/updated_at come from BaseFields in
  src/app/models/db_models/base.py, which is not present in the source
  tree; timestamps are modelled from the spec (see snapOf below).
-/

namespace OrdersApp

/-- Payment status enumeration, src/app/models/db_models/order.py (PaymentStatus). -/
inductive PaymentStatus where
  | unpaid
  | paid
  | canceled
deriving DecidableEq, Repr

/-- Product history action enumeration, src/app/models/db_models/product_history.py (ProductAction). -/
inductive ProductAction where
  | created
  | updated
  | deleted
deriving DecidableEq, Repr

/-- Product row, src/app/models/db_models/product.py. -/
structure Product where
  id : Nat
  catalogItemId : Nat
  sellPrice : ℚ
  purchasePrice : ℚ
  quantity : Int
deriving DecidableEq, Repr

/-- Modelled from the spec: the audit snapshot serialised by ProductRead
(src/app/models/validators/product.py) also carries the created_at and
updated_at columns of BaseFields (src/app/models/db_models/base.py, a file
absent from the source tree).  Per the spec, created_at is fixed at row
creation and updated_at changes exactly when some persisted column of the
row changes, so on the states this development reasons about two snapshots
of one product are equal if and only if the non-timestamp columns below are
equal; the timestamps are therefore omitted from the model. -/
structure Snapshot where
  id : Nat
  catalogItemId : Nat
  sellPrice : ℚ
  purchasePrice : ℚ
  quantity : Int
deriving DecidableEq, Repr

/-- Snapshot of a product's current field values,
ProductService._create_product_snapshot (src/app/services/product.py). -/
def snapOf (p : Product) : Snapshot :=
  ⟨p.id, p.catalogItemId, p.sellPrice, p.purchasePrice, p.quantity⟩

/-- Product history row, src/app/models/db_models/product_history.py. -/
structure HistRow where
  productId : Option Nat
  userId : Option Nat
  action : ProductAction
  snapshot : Snapshot
deriving DecidableEq, Repr

/-- Order row, src/app/models/db_models/order.py. -/
structure Order where
  id : Nat
  userId : Nat
  paymentStatus : PaymentStatus
deriving DecidableEq, Repr

/-- Order item row, src/app/models/db_models/order_item.py. -/
structure OrderItem where
  id : Nat
  orderId : Nat
  productId : Nat
  quantity : Int
  price : ℚ
deriving DecidableEq, Repr

/-- Database state: the tables touched by the order/product/history
subsystem.  Catalog items are reduced to their ids (name and description
are never read by this subsystem).  The history list is newest-first. -/
structure DB where
  catalogItems : List Nat
  products : List Product
  orders : List Order
  orderItems : List OrderItem
  history : List HistRow
  nextId : Nat
deriving DecidableEq, Repr

/-- Domain errors raised by the services (HTTPException payloads in the
source, plus pydantic validation failure and attribute errors). -/
inductive Err where
  | orderNotFound (orderId : Nat)
  | productNotFound (productId : Nat)
  | catalogItemNotFound (catalogItemId : Nat)
  | orderItemNotFound (itemId : Nat) (orderId : Nat)
  | insufficientStock (productId : Nat)
  | validationError
  | internalError
deriving DecidableEq, Repr

/-- Result of one service call: the optional error it raised and the
database state as committed when the request's session closes. -/
structure ExecR where
  err : Option Err
  db : DB
deriving DecidableEq, Repr

/-- Lookup of a product by id (scalar_one_or_none over a WHERE id = pid query). -/
def findProduct (db : DB) (pid : Nat) : Option Product :=
  db.products.find? (fun p => decide (p.id = pid))

/-- Lookup of an order by id. -/
def findOrder (db : DB) (oid : Nat) : Option Order :=
  db.orders.find? (fun o => decide (o.id = oid))

/-- Items of one order (the selectinload of Order.items). -/
def itemsOf (db : DB) (oid : Nat) : List OrderItem :=
  db.orderItems.filter (fun it => decide (it.orderId = oid))

/-- History rows of one product, newest first. -/
def histFor (db : DB) (pid : Nat) : List HistRow :=
  db.history.filter (fun r => decide (r.productId = some pid))

/-- Most recent history snapshot for a product
(ORDER BY created_at DESC LIMIT 1 in ProductService._save_history). -/
def lastSnapFor (db : DB) (pid : Nat) : Option Snapshot :=
  (histFor db pid).head?.map (fun r => r.snapshot)

/-- ProductService._save_history: for action updated, skip the write when
the snapshot equals the most recent stored snapshot of that product;
otherwise (and always for created and deleted) prepend a new history row. -/
def saveHistory (db : DB) (p : Product) (action : ProductAction)
    (userId : Option Nat) : DB :=
  if action = ProductAction.updated ∧ lastSnapFor db p.id = some (snapOf p) then
    db
  else
    { db with history := ⟨some p.id, userId, action, snapOf p⟩ :: db.history }

/-- ProductCreate validator, src/app/models/validators/product.py. -/
structure ProductCreateV where
  catalogItemId : Nat
  sellPrice : ℚ
  purchasePrice : ℚ
  quantity : Int
deriving DecidableEq, Repr

/-- Pydantic field constraints of ProductCreate (ge=0 on prices and quantity). -/
def ProductCreateV.Valid (pd : ProductCreateV) : Prop :=
  0 ≤ pd.sellPrice ∧ 0 ≤ pd.purchasePrice ∧ 0 ≤ pd.quantity

instance (pd : ProductCreateV) : Decidable pd.Valid :=
  inferInstanceAs (Decidable (_ ∧ _ ∧ _))

/-- ProductUpdate validator, src/app/models/validators/product.py; a `none`
field is an unset field (model_dump(exclude_unset=True) omits it). -/
structure ProductUpdateV where
  catalogItemId : Option Nat
  sellPrice : Option ℚ
  purchasePrice : Option ℚ
  quantity : Option Int
deriving DecidableEq, Repr

/-- Pydantic field constraints of ProductUpdate (ge=0 on set fields). -/
def ProductUpdateV.Valid (pd : ProductUpdateV) : Prop :=
  (∀ x ∈ pd.sellPrice, 0 ≤ x) ∧ (∀ x ∈ pd.purchasePrice, 0 ≤ x) ∧
    (∀ q ∈ pd.quantity, 0 ≤ q)

instance (pd : ProductUpdateV) : Decidable pd.Valid :=
  inferInstanceAs (Decidable (_ ∧ _ ∧ _))

/-- Field assignment loop of ProductService.update_product: each field
present in the validated payload is written onto the product row. -/
def applyProductUpdate (p : Product) (pd : ProductUpdateV) : Product :=
  { p with
    catalogItemId := pd.catalogItemId.getD p.catalogItemId
    sellPrice := pd.sellPrice.getD p.sellPrice
    purchasePrice := pd.purchasePrice.getD p.purchasePrice
    quantity := pd.quantity.getD p.quantity }

/-- UPDATE product SET ... WHERE id = p'.id: replace the row with that id. -/
def setProduct (db : DB) (p' : Product) : DB :=
  { db with
    products := db.products.map (fun p => if p.id = p'.id then p' else p) }

/-- Successful tail of ProductService.update_product: write the fields,
record history with action updated, commit. -/
def updateProductApply (db : DB) (p : Product) (pd : ProductUpdateV)
    (userId : Option Nat) : ExecR :=
  let p' := applyProductUpdate p pd
  ⟨none, saveHistory (setProduct db p') p' ProductAction.updated userId⟩

/-- ProductService.update_product (src/app/services/product.py): fetch the
product (404 when absent), check the catalog item when one is supplied
(404 when absent), apply the fields, save history, commit.  Failures occur
before the commit, so they leave the committed state unchanged. -/
def updateProduct (db : DB) (pid : Nat) (pd : ProductUpdateV)
    (userId : Option Nat) : ExecR :=
  match findProduct db pid with
  | none => ⟨some (Err.productNotFound pid), db⟩
  | some p =>
    match pd.catalogItemId with
    | none => updateProductApply db p pd userId
    | some cid =>
      if cid ∈ db.catalogItems then updateProductApply db p pd userId
      else ⟨some (Err.catalogItemNotFound cid), db⟩

/-- ProductService.create_product: check the catalog item, insert the new
product row, record history with action created, commit. -/
def createProduct (db : DB) (pd : ProductCreateV) (userId : Option Nat) :
    ExecR :=
  if pd.catalogItemId ∈ db.catalogItems then
    let p : Product :=
      ⟨db.nextId, pd.catalogItemId, pd.sellPrice, pd.purchasePrice, pd.quantity⟩
    let db1 : DB :=
      { db with
        products := db.products ++ [p]
        nextId := db.nextId + 1 }
    ⟨none, saveHistory db1 p ProductAction.created userId⟩
  else ⟨some (Err.catalogItemNotFound pd.catalogItemId), db⟩

/-- CatalogService create: plain insert of a catalog item row. -/
def createCatalogItem (db : DB) : DB :=
  { db with
    catalogItems := db.catalogItems ++ [db.nextId]
    nextId := db.nextId + 1 }

/-- OrderItemCreate validator, src/app/models/validators/order.py. -/
structure OrderItemCreateV where
  productId : Nat
  quantity : Int
deriving DecidableEq, Repr

/-- Pydantic constraint of OrderItemCreate (quantity ge=1). -/
def OrderItemCreateV.Valid (d : OrderItemCreateV) : Prop := 1 ≤ d.quantity

instance (d : OrderItemCreateV) : Decidable d.Valid :=
  inferInstanceAs (Decidable (_ ≤ _))

/-- OrderItemUpdate validator, src/app/models/validators/order.py. -/
structure OrderItemUpdateV where
  itemId : Nat
  quantity : Int
deriving DecidableEq, Repr

/-- Pydantic constraint of OrderItemUpdate (quantity ge=1). -/
def OrderItemUpdateV.Valid (u : OrderItemUpdateV) : Prop := 1 ≤ u.quantity

instance (u : OrderItemUpdateV) : Decidable u.Valid :=
  inferInstanceAs (Decidable (_ ≤ _))

/-- OrderUpdate validator; in the source each list may also be null, which
the service treats exactly like an empty list (a falsy guard around a loop). -/
structure OrderUpdateV where
  deleteItemIds : List Nat
  newItems : List OrderItemCreateV
  updateItems : List OrderItemUpdateV
deriving DecidableEq, Repr

/-- Item construction loop shared by OrderService._add_items_to_order and
OrderService._add_new_items_to_order: resolve each product (404 aborts the
whole call with nothing committed) and snapshot its sell_price into the new
order item.  Fresh row ids are allocated from startId upwards. -/
def buildItems (db : DB) (oid : Nat) (startId : Nat) :
    List OrderItemCreateV → Except Err (List OrderItem)
  | [] => Except.ok []
  | d :: rest =>
    match findProduct db d.productId with
    | none => Except.error (Err.productNotFound d.productId)
    | some p =>
      (buildItems db oid (startId + 1) rest).map
        (fun its => ⟨startId, oid, p.id, d.quantity, p.sellPrice⟩ :: its)

/-- OrderService.create_order: insert the order row (status unpaid, the
column default), build its items, commit; a missing product aborts with
nothing committed. -/
def createOrder (db : DB) (userId : Nat) (ds : List OrderItemCreateV) :
    ExecR :=
  let oid := db.nextId
  match buildItems db oid (db.nextId + 1) ds with
  | Except.error e => ⟨some e, db⟩
  | Except.ok its =>
    ⟨none,
      { db with
        orders := db.orders ++ [⟨oid, userId, PaymentStatus.unpaid⟩]
        orderItems := db.orderItems ++ its
        nextId := db.nextId + 1 + ds.length }⟩

/-- OrderService._update_order_items: each quantity update is looked up in
the item map built from the order's items BEFORE the deletion phase ran;
an id not in that map raises 404 naming the item id and the order id. -/
def applyItemUpdates (cur : List OrderItem) (ups : List OrderItemUpdateV)
    (oid : Nat) : Except Err (List OrderItem) :=
  match ups with
  | [] => Except.ok cur
  | u :: rest =>
    if (cur.find? (fun it => decide (it.id = u.itemId))).isSome then
      applyItemUpdates
        (cur.map (fun it =>
          if it.id = u.itemId then { it with quantity := u.quantity } else it))
        rest oid
    else Except.error (Err.orderItemNotFound u.itemId oid)

/-- OrderService.update_order (src/app/services/order.py): load the order
(404 when absent), build the id-to-item map, then run the deletion phase
(ids not belonging to the order are silently ignored), the quantity-update
phase and the new-item phase, and commit once at the end.  A deleted row
stays deleted even if a quantity update also touched it (SQLAlchemy emits
the DELETE for an instance marked for deletion regardless of later
attribute writes).  Any failure happens before the single commit, so it
leaves the committed state unchanged. -/
def updateOrder (db : DB) (oid : Nat) (upd : OrderUpdateV) : ExecR :=
  match findOrder db oid with
  | none => ⟨some (Err.orderNotFound oid), db⟩
  | some _ =>
    let items := itemsOf db oid
    match applyItemUpdates items upd.updateItems oid with
    | Except.error e => ⟨some e, db⟩
    | Except.ok items' =>
      match buildItems db oid db.nextId upd.newItems with
      | Except.error e => ⟨some e, db⟩
      | Except.ok newIts =>
        let kept := items'.filter (fun it => !upd.deleteItemIds.contains it.id)
        let others := db.orderItems.filter (fun it => decide (it.orderId ≠ oid))
        ⟨none,
          { db with
            orderItems := others ++ kept ++ newIts
            nextId := db.nextId + upd.newItems.length }⟩

/-- OrderService._validate_stock_availability: walk the items in order and
raise 400 naming the product of the first item whose quantity exceeds the
product's on-hand quantity.  A missing backing product would make the
source dereference a null relationship (attribute error), modelled as an
internal error. -/
def validateStock (db : DB) : List OrderItem → Option Err
  | [] => none
  | it :: rest =>
    match findProduct db it.productId with
    | none => some Err.internalError
    | some p =>
      if p.quantity < it.quantity then some (Err.insufficientStock p.id)
      else validateStock db rest

/-- OrderService._reduce_product_quantities: for each item in turn, read
the product's current quantity, build a ProductUpdate carrying the
decremented quantity (pydantic rejects a negative value before the service
is even called), and invoke ProductService.update_product, WHICH COMMITS.
The state returned on an error is therefore the state committed by the
iterations that already completed. -/
def reduceLoop (db : DB) (items : List OrderItem) (userId : Nat) : ExecR :=
  match items with
  | [] => ⟨none, db⟩
  | it :: rest =>
    match findProduct db it.productId with
    | none => ⟨some Err.internalError, db⟩
    | some p =>
      let newq := p.quantity - it.quantity
      if newq < 0 then ⟨some Err.validationError, db⟩
      else
        match updateProduct db p.id ⟨none, none, none, some newq⟩ (some userId) with
        | ⟨some e, db'⟩ => ⟨some e, db'⟩
        | ⟨none, db'⟩ => reduceLoop db' rest userId

/-- UPDATE of the order's payment_status column. -/
def setOrderStatus (db : DB) (oid : Nat) (st : PaymentStatus) : DB :=
  { db with
    orders := db.orders.map (fun o =>
      if o.id = oid then { o with paymentStatus := st } else o) }

/-- OrderService.update_payment_status (src/app/services/order.py): load
the order with its items under a row lock (404 when absent), validate
stock for every item, run the decrement loop (each iteration commits on
its own, see reduceLoop), assign the REQUESTED status to the order and
commit. -/
def updatePaymentStatus (db : DB) (oid : Nat) (st : PaymentStatus)
    (userId : Nat) : ExecR :=
  match findOrder db oid with
  | none => ⟨some (Err.orderNotFound oid), db⟩
  | some _ =>
    let items := itemsOf db oid
    match validateStock db items with
    | some e => ⟨some e, db⟩
    | none =>
      match reduceLoop db items userId with
      | ⟨some e, db'⟩ => ⟨some e, db'⟩
      | ⟨none, db'⟩ => ⟨none, setOrderStatus db' oid st⟩

/-- Empty initial database. -/
def DB.empty : DB := ⟨[], [], [], [], [], 0⟩

/-- States reachable through the public service operations, starting from
the empty store.  Each step may be a success or a failure; in both cases
the resulting component is the state the call left committed.  The Valid
side conditions are the pydantic validations performed at the HTTP
boundary before a service is invoked. -/
inductive Reachable : DB → Prop where
  | init : Reachable DB.empty
  | newCatalogItem {db : DB} : Reachable db → Reachable (createCatalogItem db)
  | newProduct {db : DB} (pd : ProductCreateV) (uid : Option Nat) :
      Reachable db → pd.Valid → Reachable (createProduct db pd uid).db
  | productUpdated {db : DB} (pid : Nat) (pd : ProductUpdateV) (uid : Option Nat) :
      Reachable db → pd.Valid → Reachable (updateProduct db pid pd uid).db
  | orderCreated {db : DB} (uid : Nat) (ds : List OrderItemCreateV) :
      Reachable db → (∀ d ∈ ds, d.Valid) → Reachable (createOrder db uid ds).db
  | orderUpdated {db : DB} (oid : Nat) (upd : OrderUpdateV) :
      Reachable db → (∀ u ∈ upd.updateItems, u.Valid) →
      (∀ d ∈ upd.newItems, d.Valid) → Reachable (updateOrder db oid upd).db
  | settled {db : DB} (oid : Nat) (st : PaymentStatus) (uid : Nat) :
      Reachable db → Reachable (updatePaymentStatus db oid st uid).db

/-! ### Basic lemmas about the lookup helpers and single writes -/

theorem findProduct_mem {db : DB} {pid : Nat} {p : Product}
    (h : findProduct db pid = some p) : p ∈ db.products :=
  List.mem_of_find?_eq_some h

theorem findProduct_id {db : DB} {pid : Nat} {p : Product}
    (h : findProduct db pid = some p) : p.id = pid := by
  have := List.find?_some h
  simpa using this

theorem findOrder_mem {db : DB} {oid : Nat} {o : Order}
    (h : findOrder db oid = some o) : o ∈ db.orders :=
  List.mem_of_find?_eq_some h

theorem findOrder_id {db : DB} {oid : Nat} {o : Order}
    (h : findOrder db oid = some o) : o.id = oid := by
  have := List.find?_some h
  simpa using this

theorem applyProductUpdate_id (p : Product) (pd : ProductUpdateV) :
    (applyProductUpdate p pd).id = p.id := rfl

theorem snapOf_inj {p q : Product} (h : snapOf p = snapOf q) : p = q := by
  cases p; cases q
  simpa [snapOf, Snapshot.mk.injEq, Product.mk.injEq] using h

theorem setProduct_history (db : DB) (p' : Product) :
    (setProduct db p').history = db.history := rfl

theorem setProduct_orders (db : DB) (p' : Product) :
    (setProduct db p').orders = db.orders := rfl

theorem setProduct_orderItems (db : DB) (p' : Product) :
    (setProduct db p').orderItems = db.orderItems := rfl

theorem setProduct_nextId (db : DB) (p' : Product) :
    (setProduct db p').nextId = db.nextId := rfl

theorem histFor_setProduct (db : DB) (p' : Product) (pid : Nat) :
    histFor (setProduct db p') pid = histFor db pid := rfl

theorem lastSnapFor_setProduct (db : DB) (p' : Product) (pid : Nat) :
    lastSnapFor (setProduct db p') pid = lastSnapFor db pid := rfl

theorem itemsOf_setProduct (db : DB) (p' : Product) (oid : Nat) :
    itemsOf (setProduct db p') oid = itemsOf db oid := rfl

theorem histFor_write (db : DB) (r : HistRow) (pid : Nat) :
    histFor { db with history := r :: db.history } pid =
      if r.productId = some pid then r :: histFor db pid else histFor db pid := by
  simp only [histFor, List.filter_cons]
  split <;> split <;> simp_all

/-- History writes for action created are unconditional. -/
theorem saveHistory_created (db : DB) (p : Product) (uid : Option Nat) :
    saveHistory db p ProductAction.created uid =
      { db with
        history := ⟨some p.id, uid, ProductAction.created, snapOf p⟩ :: db.history } := by
  simp [saveHistory]

/-- History writes for action updated are skipped exactly when the snapshot
matches the product's most recent stored snapshot. -/
theorem saveHistory_updated_skip {db : DB} {p : Product} (uid : Option Nat)
    (h : lastSnapFor db p.id = some (snapOf p)) :
    saveHistory db p ProductAction.updated uid = db := by
  simp [saveHistory, h]

theorem saveHistory_updated_write {db : DB} {p : Product} (uid : Option Nat)
    (h : lastSnapFor db p.id ≠ some (snapOf p)) :
    saveHistory db p ProductAction.updated uid =
      { db with
        history := ⟨some p.id, uid, ProductAction.updated, snapOf p⟩ :: db.history } := by
  simp [saveHistory, h]

theorem saveHistory_products (db : DB) (p : Product) (a : ProductAction)
    (uid : Option Nat) : (saveHistory db p a uid).products = db.products := by
  unfold saveHistory; split <;> rfl

theorem saveHistory_orders (db : DB) (p : Product) (a : ProductAction)
    (uid : Option Nat) : (saveHistory db p a uid).orders = db.orders := by
  unfold saveHistory; split <;> rfl

theorem saveHistory_orderItems (db : DB) (p : Product) (a : ProductAction)
    (uid : Option Nat) : (saveHistory db p a uid).orderItems = db.orderItems := by
  unfold saveHistory; split <;> rfl

theorem saveHistory_catalogItems (db : DB) (p : Product) (a : ProductAction)
    (uid : Option Nat) : (saveHistory db p a uid).catalogItems = db.catalogItems := by
  unfold saveHistory; split <;> rfl

theorem saveHistory_nextId (db : DB) (p : Product) (a : ProductAction)
    (uid : Option Nat) : (saveHistory db p a uid).nextId = db.nextId := by
  unfold saveHistory; split <;> rfl

/-! ### Frame lemmas for updateProduct -/

theorem updateProductApply_err (db : DB) (p : Product) (pd : ProductUpdateV)
    (uid : Option Nat) : (updateProductApply db p pd uid).err = none := rfl

theorem updateProduct_orders (db : DB) (pid : Nat) (pd : ProductUpdateV)
    (uid : Option Nat) : (updateProduct db pid pd uid).db.orders = db.orders := by
  unfold updateProduct
  cases findProduct db pid <;> simp
  case some p =>
    cases pd.catalogItemId <;>
      simp [updateProductApply, saveHistory_orders, setProduct_orders]
    case some cid => split <;> simp [updateProductApply, saveHistory_orders, setProduct_orders]

theorem updateProduct_orderItems (db : DB) (pid : Nat) (pd : ProductUpdateV)
    (uid : Option Nat) :
    (updateProduct db pid pd uid).db.orderItems = db.orderItems := by
  unfold updateProduct
  cases findProduct db pid <;> simp
  case some p =>
    cases pd.catalogItemId <;>
      simp [updateProductApply, saveHistory_orderItems, setProduct_orderItems]
    case some cid =>
      split <;> simp [updateProductApply, saveHistory_orderItems, setProduct_orderItems]

theorem updateProduct_catalogItems (db : DB) (pid : Nat) (pd : ProductUpdateV)
    (uid : Option Nat) :
    (updateProduct db pid pd uid).db.catalogItems = db.catalogItems := by
  unfold updateProduct
  cases findProduct db pid <;> simp
  case some p =>
    cases pd.catalogItemId <;>
      simp [updateProductApply, saveHistory_catalogItems, setProduct]
    case some cid =>
      split <;> simp [updateProductApply, saveHistory_catalogItems, setProduct]

theorem updateProduct_nextId (db : DB) (pid : Nat) (pd : ProductUpdateV)
    (uid : Option Nat) : (updateProduct db pid pd uid).db.nextId = db.nextId := by
  unfold updateProduct
  cases findProduct db pid <;> simp
  case some p =>
    cases pd.catalogItemId <;>
      simp [updateProductApply, saveHistory_nextId, setProduct_nextId, setProduct]
    case some cid =>
      split <;> simp [updateProductApply, saveHistory_nextId, setProduct_nextId, setProduct]

/-- Failures of updateProduct occur before its commit and leave the state
unchanged. -/
theorem updateProduct_err_db {db : DB} {pid : Nat} {pd : ProductUpdateV}
    {uid : Option Nat} {e : Err} (h : (updateProduct db pid pd uid).err = some e) :
    (updateProduct db pid pd uid).db = db := by
  unfold updateProduct at *
  cases hf : findProduct db pid <;> simp [hf] at h ⊢
  case some p =>
    cases hc : pd.catalogItemId <;> simp [hc, updateProductApply] at h ⊢
    case some cid =>
      split at h
      · simp [updateProductApply] at h
      · split <;> simp_all

theorem updateProduct_err_shape {db : DB} {pid : Nat} {pd : ProductUpdateV}
    {uid : Option Nat} {e : Err} (h : (updateProduct db pid pd uid).err = some e) :
    (∃ x, e = Err.productNotFound x) ∨ ∃ c, e = Err.catalogItemNotFound c := by
  unfold updateProduct at h
  cases hf : findProduct db pid <;> simp [hf] at h
  case none => exact Or.inl ⟨pid, h.symm⟩
  case some p =>
    cases hc : pd.catalogItemId <;> simp [hc, updateProductApply] at h
    case some cid =>
      split at h
      · simp [updateProductApply] at h
      · simp at h; exact Or.inr ⟨cid, h.symm⟩

/-- Reduction of updateProduct in the case the product exists and no
catalog item is supplied (the shape used inside the settlement loop). -/
theorem updateProduct_no_catalog {db : DB} {pid : Nat} {p : Product}
    (pd : ProductUpdateV) (uid : Option Nat) (hf : findProduct db pid = some p)
    (hc : pd.catalogItemId = none) :
    updateProduct db pid pd uid = updateProductApply db p pd uid := by
  unfold updateProduct
  simp [hf, hc]

/-! ### The settlement loop -/

theorem reduceLoop_orders (db : DB) (items : List OrderItem) (uid : Nat) :
    (reduceLoop db items uid).db.orders = db.orders := by
  induction items generalizing db with
  | nil => rfl
  | cons it rest ih =>
    simp only [reduceLoop]
    cases hf : findProduct db it.productId with
    | none => rfl
    | some p =>
      by_cases hq : p.quantity - it.quantity < 0
      · simp only [if_pos hq]
      · simp only [if_neg hq]
        cases hu : updateProduct db p.id
            ⟨none, none, none, some (p.quantity - it.quantity)⟩ (some uid) with
        | mk err db' =>
          have h1 : db'.orders = db.orders := by
            have h2 := updateProduct_orders db p.id
              ⟨none, none, none, some (p.quantity - it.quantity)⟩ (some uid)
            rw [hu] at h2; exact h2
          cases err with
          | some e => exact h1
          | none => exact (ih db').trans h1

theorem reduceLoop_orderItems (db : DB) (items : List OrderItem) (uid : Nat) :
    (reduceLoop db items uid).db.orderItems = db.orderItems := by
  induction items generalizing db with
  | nil => rfl
  | cons it rest ih =>
    simp only [reduceLoop]
    cases hf : findProduct db it.productId with
    | none => rfl
    | some p =>
      by_cases hq : p.quantity - it.quantity < 0
      · simp only [if_pos hq]
      · simp only [if_neg hq]
        cases hu : updateProduct db p.id
            ⟨none, none, none, some (p.quantity - it.quantity)⟩ (some uid) with
        | mk err db' =>
          have h1 : db'.orderItems = db.orderItems := by
            have h2 := updateProduct_orderItems db p.id
              ⟨none, none, none, some (p.quantity - it.quantity)⟩ (some uid)
            rw [hu] at h2; exact h2
          cases err with
          | some e => exact h1
          | none => exact (ih db').trans h1

/-- Errors inside the settlement decrement loop are only the modelled
pydantic rejection and the missing-relationship crash; in particular the
loop never raises the insufficient-stock error. -/
theorem reduceLoop_err_shape {db : DB} {items : List OrderItem} {uid : Nat} {e : Err}
    (h : (reduceLoop db items uid).err = some e) :
    e = Err.internalError ∨ e = Err.validationError := by
  induction items generalizing db with
  | nil => simp [reduceLoop] at h
  | cons it rest ih =>
    simp only [reduceLoop] at h
    cases hf : findProduct db it.productId with
    | none => simp only [hf] at h; simp at h; exact Or.inl h.symm
    | some p =>
      simp only [hf] at h
      by_cases hq : p.quantity - it.quantity < 0
      · simp only [if_pos hq] at h; simp at h; exact Or.inr h.symm
      · simp only [if_neg hq] at h
        cases hu : updateProduct db p.id
            ⟨none, none, none, some (p.quantity - it.quantity)⟩ (some uid) with
        | mk err db' =>
          simp only [hu] at h
          cases err with
          | some e' =>
            rw [updateProduct_no_catalog ⟨none, none, none, some (p.quantity - it.quantity)⟩
              (some uid) (findProduct_id hf ▸ hf) rfl] at hu
            simp [updateProductApply] at hu
          | none => exact ih h

theorem reduceLoop_cons_none {db : DB} {it : OrderItem} (rest : List OrderItem)
    (uid : Nat) (hf : findProduct db it.productId = none) :
    reduceLoop db (it :: rest) uid = ⟨some Err.internalError, db⟩ := by
  simp only [reduceLoop, hf]

theorem reduceLoop_cons_neg {db : DB} {it : OrderItem} {p : Product}
    (rest : List OrderItem) (uid : Nat) (hf : findProduct db it.productId = some p)
    (hq : p.quantity - it.quantity < 0) :
    reduceLoop db (it :: rest) uid = ⟨some Err.validationError, db⟩ := by
  simp only [reduceLoop, hf, if_pos hq]

theorem reduceLoop_cons_step {db db' : DB} {it : OrderItem} {p : Product}
    (rest : List OrderItem) (uid : Nat) (hf : findProduct db it.productId = some p)
    (hq : ¬ p.quantity - it.quantity < 0)
    (hu : updateProduct db p.id ⟨none, none, none, some (p.quantity - it.quantity)⟩
        (some uid) = ⟨none, db'⟩) :
    reduceLoop db (it :: rest) uid = reduceLoop db' rest uid := by
  simp only [reduceLoop, hf, if_neg hq, hu]

/-- The state a failing settlement loop leaves committed is the state
produced by running the loop on a prefix of the items (each completed
iteration committed on its own). -/
theorem reduceLoop_err_take {db : DB} {items : List OrderItem} {uid : Nat} {e : Err}
    (h : (reduceLoop db items uid).err = some e) :
    ∃ j ≤ items.length,
      (reduceLoop db items uid).db = (reduceLoop db (items.take j) uid).db ∧
        (reduceLoop db (items.take j) uid).err = none := by
  induction items generalizing db with
  | nil => simp [reduceLoop] at h
  | cons it rest ih =>
    cases hf : findProduct db it.productId with
    | none =>
      exact ⟨0, by simp, by rw [reduceLoop_cons_none rest uid hf]; rfl, rfl⟩
    | some p =>
      by_cases hq : p.quantity - it.quantity < 0
      · exact ⟨0, by simp, by rw [reduceLoop_cons_neg rest uid hf hq]; rfl, rfl⟩
      · cases hu : updateProduct db p.id
            ⟨none, none, none, some (p.quantity - it.quantity)⟩ (some uid) with
        | mk err db' =>
          cases err with
          | some e' =>
            rw [updateProduct_no_catalog ⟨none, none, none, some (p.quantity - it.quantity)⟩
              (some uid) (findProduct_id hf ▸ hf) rfl] at hu
            simp [updateProductApply] at hu
          | none =>
            rw [reduceLoop_cons_step rest uid hf hq hu] at h
            obtain ⟨j, hj, hdb, herr⟩ := ih h
            refine ⟨j + 1, by simpa using Nat.succ_le_succ hj, ?_, ?_⟩
            · rw [List.take_succ_cons, reduceLoop_cons_step rest uid hf hq hu,
                reduceLoop_cons_step (rest.take j) uid hf hq hu]
              exact hdb
            · rw [List.take_succ_cons, reduceLoop_cons_step (rest.take j) uid hf hq hu]
              exact herr

/-! ### The stock check -/

/-- Predicate picking out an order item whose requested quantity exceeds
the backing product's on-hand quantity. -/
def itemShort (db : DB) (it : OrderItem) : Bool :=
  match findProduct db it.productId with
  | none => false
  | some p => decide (p.quantity < it.quantity)

/-- Under intact foreign keys the stock check returns exactly the
insufficient-stock error for the first item in item order that is short,
and no error when no item is short. -/
theorem validateStock_eq (db : DB) (items : List OrderItem)
    (hfk : ∀ it ∈ items, (findProduct db it.productId).isSome) :
    validateStock db items =
      (items.find? (itemShort db)).map (fun it => Err.insufficientStock it.productId) := by
  induction items with
  | nil => rfl
  | cons it rest ih =>
    have hit : (findProduct db it.productId).isSome := hfk it (by simp)
    obtain ⟨p, hp⟩ := Option.isSome_iff_exists.mp hit
    unfold validateStock
    by_cases hq : p.quantity < it.quantity
    · have hshort : itemShort db it = true := by simp [itemShort, hp, hq]
      rw [List.find?_cons_of_pos _ hshort]
      simp [hp, hq, findProduct_id hp]
    · have hshort : ¬ itemShort db it = true := by simp [itemShort, hp, hq]
      rw [List.find?_cons_of_neg _ hshort]
      simp [hp, hq]
      exact ih (fun j hj => hfk j (by simp [hj]))

/-! ### Payment status writes -/

theorem setOrderStatus_products (db : DB) (oid : Nat) (st : PaymentStatus) :
    (setOrderStatus db oid st).products = db.products := rfl

theorem setOrderStatus_orderItems (db : DB) (oid : Nat) (st : PaymentStatus) :
    (setOrderStatus db oid st).orderItems = db.orderItems := rfl

theorem setOrderStatus_history (db : DB) (oid : Nat) (st : PaymentStatus) :
    (setOrderStatus db oid st).history = db.history := rfl

theorem find?_map_setStatus {l : List Order} {oid : Nat} {o : Order}
    (st : PaymentStatus) (h : l.find? (fun x => decide (x.id = oid)) = some o) :
    (l.map (fun x => if x.id = oid then { x with paymentStatus := st } else x)).find?
        (fun x => decide (x.id = oid)) = some { o with paymentStatus := st } := by
  induction l with
  | nil => simp at h
  | cons a l ih =>
    simp only [List.map_cons]
    by_cases ha : a.id = oid
    · rw [List.find?_cons_of_pos _ (by simpa using ha)] at h
      rw [if_pos ha, List.find?_cons_of_pos _ (by simpa using ha)]
      simp at h
      subst h
      rfl
    · rw [List.find?_cons_of_neg _ (by simpa using ha)] at h
      rw [if_neg ha, List.find?_cons_of_neg _ (by simpa using ha)]
      exact ih h

theorem findOrder_setOrderStatus {db : DB} {oid : Nat} {o : Order}
    (st : PaymentStatus) (h : findOrder db oid = some o) :
    findOrder (setOrderStatus db oid st) oid = some { o with paymentStatus := st } :=
  find?_map_setStatus st h

/-! ### More helpers for product updates -/

theorem histFor_cons (db2 db : DB) (r : HistRow) (hh : db2.history = r :: db.history)
    (pid : Nat) :
    histFor db2 pid =
      if r.productId = some pid then r :: histFor db pid else histFor db pid := by
  unfold histFor
  rw [hh, List.filter_cons]
  by_cases hr : r.productId = some pid <;> simp [hr]

theorem lastSnapFor_eq_of_histFor {db2 db : DB} (pid : Nat)
    (h : histFor db2 pid = histFor db pid) :
    lastSnapFor db2 pid = lastSnapFor db pid := by
  unfold lastSnapFor; rw [h]

theorem histFor_nextId_nil {db : DB}
    (hfr : ∀ r ∈ db.history, ∀ pid, r.productId = some pid → pid < db.nextId) :
    histFor db db.nextId = [] := by
  rw [List.eq_nil_iff_forall_not_mem]
  intro r hr
  have hm := List.mem_filter.mp hr
  have := hfr r hm.1 db.nextId (by simpa using hm.2)
  exact absurd this (lt_irrefl _)

theorem setProduct_self {db : DB} (hnd : (db.products.map Product.id).Nodup)
    {p : Product} (hp : p ∈ db.products) : setProduct db p = db := by
  have h2 : ∀ q ∈ db.products, (if q.id = p.id then p else q) = q := by
    intro q hq
    by_cases hid : q.id = p.id
    · rw [if_pos hid, List.inj_on_of_nodup_map hnd hq hp hid]
    · rw [if_neg hid]
  have h3 : db.products.map (fun q => if q.id = p.id then p else q) = db.products := by
    simpa using List.map_congr_left h2
  unfold setProduct
  rw [h3]

theorem setProduct_ids (db : DB) (p' : Product) :
    (setProduct db p').products.map Product.id = db.products.map Product.id := by
  simp only [setProduct, List.map_map]
  apply List.map_congr_left
  intro q _
  by_cases hid : q.id = p'.id
  · simp [Function.comp, hid]
  · simp [Function.comp, hid]

theorem mem_setProduct {db : DB} {p' q' : Product}
    (h : q' ∈ (setProduct db p').products) :
    ∃ q ∈ db.products, q' = if q.id = p'.id then p' else q := by
  obtain ⟨q, hq, hq'⟩ := List.mem_map.mp h
  exact ⟨q, hq, hq'.symm⟩

theorem find?_map_set {l : List Product} {pid : Nat} {p p' : Product}
    (hid : p'.id = pid) (h : l.find? (fun x => decide (x.id = pid)) = some p) :
    (l.map (fun q => if q.id = p'.id then p' else q)).find?
      (fun x => decide (x.id = pid)) = some p' := by
  induction l with
  | nil => simp at h
  | cons a l ih =>
    simp only [List.map_cons]
    by_cases ha : a.id = pid
    · rw [if_pos (by rw [ha, hid])]
      rw [List.find?_cons_of_pos _ (by simpa using hid)]
    · rw [List.find?_cons_of_neg _ (by simpa using ha)] at h
      rw [if_neg (fun hc => ha (hc.trans hid)), List.find?_cons_of_neg _ (by simpa using ha)]
      exact ih h

theorem findProduct_setProduct {db : DB} {pid : Nat} {p p' : Product}
    (hid : p'.id = pid) (h : findProduct db pid = some p) :
    findProduct (setProduct db p') pid = some p' :=
  find?_map_set hid h

/-! ### The reachable-state invariant -/

/-- Invariant holding at every state reachable through the public
operations: row ids are fresh w.r.t. the id counter and unique, product
quantities are non-negative, the most recent history snapshot of every
product equals the product's current state, per-product history never has
two adjacent rows with equal snapshots, and every per-product history row
except the oldest carries action updated. -/
structure Inv (db : DB) : Prop where
  prodFresh : ∀ p ∈ db.products, p.id < db.nextId
  histFresh : ∀ r ∈ db.history, ∀ pid, r.productId = some pid → pid < db.nextId
  prodNodup : (db.products.map Product.id).Nodup
  qtyNonneg : ∀ p ∈ db.products, 0 ≤ p.quantity
  lastSnap : ∀ p ∈ db.products, lastSnapFor db p.id = some (snapOf p)
  histChain : ∀ pid, (histFor db pid).Chain' (fun a b => a.snapshot ≠ b.snapshot)
  histShape : ∀ pid, ∀ r ∈ (histFor db pid).dropLast, r.action = ProductAction.updated

theorem inv_empty : Inv DB.empty := by
  refine ⟨?_, ?_, ?_, ?_, ?_, ?_, ?_⟩ <;> simp [DB.empty, histFor, lastSnapFor]

/-- Operations that touch neither products nor history and do not decrease
the id counter preserve the invariant. -/
theorem inv_frame {db db2 : DB} (h : Inv db) (hp : db2.products = db.products)
    (hh : db2.history = db.history) (hn : db.nextId ≤ db2.nextId) : Inv db2 := by
  have hhist : ∀ pid, histFor db2 pid = histFor db pid := by
    intro pid; unfold histFor; rw [hh]
  refine ⟨?_, ?_, ?_, ?_, ?_, ?_, ?_⟩
  · intro p hp'; rw [hp] at hp'; exact lt_of_lt_of_le (h.prodFresh p hp') hn
  · intro r hr pid hpid; rw [hh] at hr
    exact lt_of_lt_of_le (h.histFresh r hr pid hpid) hn
  · rw [hp]; exact h.prodNodup
  · intro p hp'; rw [hp] at hp'; exact h.qtyNonneg p hp'
  · intro p hp'; rw [hp] at hp'
    rw [lastSnapFor_eq_of_histFor p.id (hhist p.id)]
    exact h.lastSnap p hp'
  · intro pid; rw [hhist pid]; exact h.histChain pid
  · intro pid; rw [hhist pid]; exact h.histShape pid

theorem inv_createCatalogItem {db : DB} (h : Inv db) : Inv (createCatalogItem db) :=
  inv_frame h rfl rfl (Nat.le_succ _)

theorem inv_updateProductApply {db : DB} {p : Product} (pd : ProductUpdateV)
    (uid : Option Nat) (h : Inv db) (hv : pd.Valid) (hp : p ∈ db.products) :
    Inv (updateProductApply db p pd uid).db := by
  by_cases hsk : snapOf (applyProductUpdate p pd) = snapOf p
  · have hpp : applyProductUpdate p pd = p := snapOf_inj hsk
    have hls : lastSnapFor (setProduct db p) p.id = some (snapOf p) := by
      rw [lastSnapFor_setProduct]; exact h.lastSnap p hp
    show Inv (saveHistory (setProduct db (applyProductUpdate p pd))
      (applyProductUpdate p pd) ProductAction.updated uid)
    rw [hpp, saveHistory_updated_skip uid hls, setProduct_self h.prodNodup hp]
    exact h
  · have hne : lastSnapFor (setProduct db (applyProductUpdate p pd))
        (applyProductUpdate p pd).id ≠ some (snapOf (applyProductUpdate p pd)) := by
      rw [applyProductUpdate_id, lastSnapFor_setProduct, h.lastSnap p hp]
      intro hcon
      exact hsk (Option.some.inj hcon).symm
    show Inv (saveHistory (setProduct db (applyProductUpdate p pd))
      (applyProductUpdate p pd) ProductAction.updated uid)
    rw [saveHistory_updated_write uid hne]
    have hhist : ∀ pid, histFor
        { setProduct db (applyProductUpdate p pd) with
          history := ⟨some (applyProductUpdate p pd).id, uid, ProductAction.updated,
            snapOf (applyProductUpdate p pd)⟩ :: (setProduct db (applyProductUpdate p pd)).history }
        pid =
        if (applyProductUpdate p pd).id = pid then
          ⟨some (applyProductUpdate p pd).id, uid, ProductAction.updated,
            snapOf (applyProductUpdate p pd)⟩ :: histFor db pid
        else histFor db pid := by
      intro pid
      rw [histFor_cons _ db _ rfl pid]
      by_cases hpid : (applyProductUpdate p pd).id = pid
      · rw [if_pos (by simpa using hpid), if_pos hpid]
      · rw [if_neg (by simpa using hpid), if_neg hpid]
    have hheadsnap : ∃ r0, (histFor db p.id).head? = some r0 ∧ r0.snapshot = snapOf p := by
      have := h.lastSnap p hp
      unfold lastSnapFor at this
      exact Option.map_eq_some'.mp this
    refine ⟨?_, ?_, ?_, ?_, ?_, ?_, ?_⟩
    · intro q' hq'
      obtain ⟨q, hq, hq'eq⟩ := mem_setProduct hq'
      by_cases hid : q.id = (applyProductUpdate p pd).id
      · rw [hq'eq, if_pos hid, applyProductUpdate_id]
        exact h.prodFresh p hp
      · rw [hq'eq, if_neg hid]
        exact h.prodFresh q hq
    · intro r hr pid hpid
      rcases List.mem_cons.mp hr with rfl | hr
      · have : p.id = pid := by simpa [applyProductUpdate_id] using hpid
        rw [← this]
        exact h.prodFresh p hp
      · exact h.histFresh r hr pid hpid
    · show ((setProduct db (applyProductUpdate p pd)).products.map Product.id).Nodup
      rw [setProduct_ids]
      exact h.prodNodup
    · intro q' hq'
      obtain ⟨q, hq, hq'eq⟩ := mem_setProduct hq'
      by_cases hid : q.id = (applyProductUpdate p pd).id
      · rw [hq'eq, if_pos hid]
        show 0 ≤ pd.quantity.getD p.quantity
        cases hqq : pd.quantity with
        | none => simpa using h.qtyNonneg p hp
        | some v => simpa using hv.2.2 v (Option.mem_def.mpr hqq)
      · rw [hq'eq, if_neg hid]
        exact h.qtyNonneg q hq
    · intro q' hq'
      obtain ⟨q, hq, hq'eq⟩ := mem_setProduct hq'
      by_cases hid : q.id = (applyProductUpdate p pd).id
      · rw [hq'eq, if_pos hid]
        unfold lastSnapFor
        rw [hhist (applyProductUpdate p pd).id, if_pos rfl]
        rfl
      · rw [hq'eq, if_neg hid]
        unfold lastSnapFor
        rw [hhist q.id, if_neg (fun hc => hid hc.symm)]
        exact h.lastSnap q hq
    · intro pid
      rw [hhist pid]
      by_cases hpid : (applyProductUpdate p pd).id = pid
      · rw [if_pos hpid]
        obtain ⟨r0, hr0, hr0s⟩ := hheadsnap
        refine List.chain'_cons'.mpr ⟨?_, ?_⟩
        · intro y hy
          have hpe : p.id = pid := by rw [← applyProductUpdate_id p pd, hpid]
          rw [← hpe] at hy
          rw [hr0] at hy
          simp at hy
          subst hy
          simp [hr0s]
          intro hcon
          exact hsk hcon
        · rw [← hpid, applyProductUpdate_id]
          exact h.histChain p.id
      · rw [if_neg hpid]
        exact h.histChain pid
    · intro pid r hr
      by_cases hpid : (applyProductUpdate p pd).id = pid
      · rw [hhist pid, if_pos hpid] at hr
        have hpe : p.id = pid := by rw [← applyProductUpdate_id p pd, hpid]
        obtain ⟨r0, hr0, _⟩ := hheadsnap
        have hnn : histFor db pid ≠ [] := by
          intro hcon
          rw [hpe, hcon] at hr0
          simp at hr0
        rw [List.dropLast_cons_of_ne_nil hnn] at hr
        rcases List.mem_cons.mp hr with rfl | hr
        · rfl
        · exact h.histShape pid r hr
      · rw [hhist pid, if_neg hpid] at hr
        exact h.histShape pid r hr

theorem inv_updateProduct {db : DB} (pid : Nat) (pd : ProductUpdateV)
    (uid : Option Nat) (h : Inv db) (hv : pd.Valid) :
    Inv (updateProduct db pid pd uid).db := by
  cases hf : findProduct db pid with
  | none =>
    have heq : updateProduct db pid pd uid = ⟨some (Err.productNotFound pid), db⟩ := by
      simp [updateProduct, hf]
    rw [heq]; exact h
  | some p =>
    cases hcid : pd.catalogItemId with
    | none =>
      rw [updateProduct_no_catalog pd uid hf hcid]
      exact inv_updateProductApply pd uid h hv (findProduct_mem hf)
    | some cid =>
      by_cases hc : cid ∈ db.catalogItems
      · have heq : updateProduct db pid pd uid = updateProductApply db p pd uid := by
          simp [updateProduct, hf, hcid, hc]
        rw [heq]; exact inv_updateProductApply pd uid h hv (findProduct_mem hf)
      · have heq : updateProduct db pid pd uid = ⟨some (Err.catalogItemNotFound cid), db⟩ := by
          simp [updateProduct, hf, hcid, hc]
        rw [heq]; exact h

theorem createProduct_pos {db : DB} {pd : ProductCreateV} (uid : Option Nat)
    (hc : pd.catalogItemId ∈ db.catalogItems) :
    createProduct db pd uid =
      ⟨none,
        { db with
          products := db.products ++
            [⟨db.nextId, pd.catalogItemId, pd.sellPrice, pd.purchasePrice, pd.quantity⟩]
          history := ⟨some db.nextId, uid, ProductAction.created,
              snapOf ⟨db.nextId, pd.catalogItemId, pd.sellPrice, pd.purchasePrice,
                pd.quantity⟩⟩ :: db.history
          nextId := db.nextId + 1 }⟩ := by
  simp [createProduct, hc, saveHistory_created]

theorem inv_createProduct {db : DB} (pd : ProductCreateV) (uid : Option Nat)
    (h : Inv db) (hv : pd.Valid) : Inv (createProduct db pd uid).db := by
  by_cases hc : pd.catalogItemId ∈ db.catalogItems
  · rw [createProduct_pos uid hc]
    refine ⟨?_, ?_, ?_, ?_, ?_, ?_, ?_⟩
    · intro q hq
      rcases List.mem_append.mp hq with hq | hq
      · exact Nat.lt_succ_of_lt (h.prodFresh q hq)
      · simp at hq
        subst hq
        exact Nat.lt_succ_self _
    · intro r hr pid hpid
      rcases List.mem_cons.mp hr with rfl | hr
      · have : db.nextId = pid := by simpa using hpid
        rw [← this]
        exact Nat.lt_succ_self _
      · exact Nat.lt_succ_of_lt (h.histFresh r hr pid hpid)
    · simp only [List.map_append, List.map_cons, List.map_nil]
      refine List.Nodup.append h.prodNodup (List.nodup_singleton _) ?_
      intro x hx hx'
      simp at hx'
      obtain ⟨q, hq, hqid⟩ := List.mem_map.mp hx
      rw [hx'] at hqid
      exact absurd (hqid ▸ h.prodFresh q hq) (lt_irrefl _)
    · intro q hq
      rcases List.mem_append.mp hq with hq | hq
      · exact h.qtyNonneg q hq
      · simp at hq
        subst hq
        exact hv.2.2
    · intro q hq
      rcases List.mem_append.mp hq with hq | hq
      · have hne : ¬ ((some db.nextId : Option Nat) = some q.id) := by
          intro hcon
          exact absurd ((Option.some.inj hcon) ▸ h.prodFresh q hq) (lt_irrefl _)
        unfold lastSnapFor
        rw [histFor_cons _ db _ rfl q.id, if_neg hne]
        exact h.lastSnap q hq
      · simp at hq
        subst hq
        unfold lastSnapFor
        rw [histFor_cons _ db _ rfl _, if_pos rfl]
        rfl
    · intro pid
      by_cases hpid : (some db.nextId : Option Nat) = some pid
      · have hpe : db.nextId = pid := Option.some.inj hpid
        rw [histFor_cons _ db _ rfl pid, if_pos hpid, ← hpe,
          histFor_nextId_nil h.histFresh]
        exact List.chain'_singleton _
      · rw [histFor_cons _ db _ rfl pid, if_neg hpid]
        exact h.histChain pid
    · intro pid r hr
      by_cases hpid : (some db.nextId : Option Nat) = some pid
      · have hpe : db.nextId = pid := Option.some.inj hpid
        rw [histFor_cons _ db _ rfl pid, if_pos hpid, ← hpe,
          histFor_nextId_nil h.histFresh] at hr
        simp at hr
      · rw [histFor_cons _ db _ rfl pid, if_neg hpid] at hr
        exact h.histShape pid r hr
  · have heq : createProduct db pd uid =
        ⟨some (Err.catalogItemNotFound pd.catalogItemId), db⟩ := by
      simp [createProduct, hc]
    rw [heq]
    exact h

/-! ### Frame lemmas for the order operations -/

theorem createOrder_products (db : DB) (uid : Nat) (ds : List OrderItemCreateV) :
    (createOrder db uid ds).db.products = db.products := by
  cases hb : buildItems db db.nextId (db.nextId + 1) ds <;> simp [createOrder, hb]

theorem createOrder_history (db : DB) (uid : Nat) (ds : List OrderItemCreateV) :
    (createOrder db uid ds).db.history = db.history := by
  cases hb : buildItems db db.nextId (db.nextId + 1) ds <;> simp [createOrder, hb]

theorem createOrder_nextId_le (db : DB) (uid : Nat) (ds : List OrderItemCreateV) :
    db.nextId ≤ (createOrder db uid ds).db.nextId := by
  cases hb : buildItems db db.nextId (db.nextId + 1) ds <;> simp [createOrder, hb]
  omega

theorem updateOrder_products (db : DB) (oid : Nat) (upd : OrderUpdateV) :
    (updateOrder db oid upd).db.products = db.products := by
  cases ho : findOrder db oid with
  | none => simp [updateOrder, ho]
  | some o =>
    cases ha : applyItemUpdates (itemsOf db oid) upd.updateItems oid with
    | error e => simp [updateOrder, ho, ha]
    | ok items' =>
      cases hb : buildItems db oid db.nextId upd.newItems <;>
        simp [updateOrder, ho, ha, hb]

theorem updateOrder_history (db : DB) (oid : Nat) (upd : OrderUpdateV) :
    (updateOrder db oid upd).db.history = db.history := by
  cases ho : findOrder db oid with
  | none => simp [updateOrder, ho]
  | some o =>
    cases ha : applyItemUpdates (itemsOf db oid) upd.updateItems oid with
    | error e => simp [updateOrder, ho, ha]
    | ok items' =>
      cases hb : buildItems db oid db.nextId upd.newItems <;>
        simp [updateOrder, ho, ha, hb]

theorem updateOrder_nextId_le (db : DB) (oid : Nat) (upd : OrderUpdateV) :
    db.nextId ≤ (updateOrder db oid upd).db.nextId := by
  cases ho : findOrder db oid with
  | none => simp [updateOrder, ho]
  | some o =>
    cases ha : applyItemUpdates (itemsOf db oid) upd.updateItems oid with
    | error e => simp [updateOrder, ho, ha]
    | ok items' =>
      cases hb : buildItems db oid db.nextId upd.newItems <;>
        simp [updateOrder, ho, ha, hb]

theorem inv_createOrder {db : DB} (uid : Nat) (ds : List OrderItemCreateV)
    (h : Inv db) : Inv (createOrder db uid ds).db :=
  inv_frame h (createOrder_products db uid ds) (createOrder_history db uid ds)
    (createOrder_nextId_le db uid ds)

theorem inv_updateOrder {db : DB} (oid : Nat) (upd : OrderUpdateV)
    (h : Inv db) : Inv (updateOrder db oid upd).db :=
  inv_frame h (updateOrder_products db oid upd) (updateOrder_history db oid upd)
    (updateOrder_nextId_le db oid upd)

theorem inv_reduceLoop {db : DB} (items : List OrderItem) (uid : Nat)
    (h : Inv db) : Inv (reduceLoop db items uid).db := by
  induction items generalizing db with
  | nil => exact h
  | cons it rest ih =>
    cases hf : findProduct db it.productId with
    | none => rw [reduceLoop_cons_none rest uid hf]; exact h
    | some p =>
      by_cases hq : p.quantity - it.quantity < 0
      · rw [reduceLoop_cons_neg rest uid hf hq]; exact h
      · cases hu : updateProduct db p.id
            ⟨none, none, none, some (p.quantity - it.quantity)⟩ (some uid) with
        | mk err db' =>
          have hval : (⟨none, none, none, some (p.quantity - it.quantity)⟩ :
              ProductUpdateV).Valid := by
            refine ⟨by simp, by simp, ?_⟩
            intro q hq'
            have : q = p.quantity - it.quantity := by
              have h2 : p.quantity - it.quantity = q := by simpa using hq'
              exact h2.symm
            rw [this]
            exact le_of_not_lt hq
          have hinv' : Inv db' := by
            have hstep := inv_updateProduct p.id
              ⟨none, none, none, some (p.quantity - it.quantity)⟩ (some uid) h hval
            rw [hu] at hstep
            exact hstep
          cases err with
          | some e =>
            have hstep : reduceLoop db (it :: rest) uid = ⟨some e, db'⟩ := by
              simp only [reduceLoop, hf, if_neg hq, hu]
            rw [hstep]
            exact hinv'
          | none =>
            rw [reduceLoop_cons_step rest uid hf hq hu]
            exact ih hinv'

theorem inv_updatePaymentStatus {db : DB} (oid : Nat) (st : PaymentStatus)
    (uid : Nat) (h : Inv db) : Inv (updatePaymentStatus db oid st uid).db := by
  cases ho : findOrder db oid with
  | none =>
    have heq : updatePaymentStatus db oid st uid = ⟨some (Err.orderNotFound oid), db⟩ := by
      simp [updatePaymentStatus, ho]
    rw [heq]
    exact h
  | some o =>
    cases hv : validateStock db (itemsOf db oid) with
    | some e =>
      have heq : updatePaymentStatus db oid st uid = ⟨some e, db⟩ := by
        simp [updatePaymentStatus, ho, hv]
      rw [heq]
      exact h
    | none =>
      cases hr : reduceLoop db (itemsOf db oid) uid with
      | mk err db' =>
        have hinv' : Inv db' := by
          have hstep := inv_reduceLoop (itemsOf db oid) uid h
          rw [hr] at hstep
          exact hstep
        cases err with
        | some e =>
          have heq : updatePaymentStatus db oid st uid = ⟨some e, db'⟩ := by
            simp [updatePaymentStatus, ho, hv, hr]
          rw [heq]
          exact hinv'
        | none =>
          have heq : updatePaymentStatus db oid st uid =
              ⟨none, setOrderStatus db' oid st⟩ := by
            simp [updatePaymentStatus, ho, hv, hr]
          rw [heq]
          exact inv_frame hinv' rfl rfl (le_refl _)

theorem inv_of_reachable {db : DB} (h : Reachable db) : Inv db := by
  induction h with
  | init => exact inv_empty
  | newCatalogItem _ ih => exact inv_createCatalogItem ih
  | newProduct pd uid _ hv ih => exact inv_createProduct pd uid ih hv
  | productUpdated pid pd uid _ hv ih => exact inv_updateProduct pid pd uid ih hv
  | orderCreated uid ds _ _ ih => exact inv_createOrder uid ds ih
  | orderUpdated oid upd _ _ _ ih => exact inv_updateOrder oid upd ih
  | settled oid st uid _ ih => exact inv_updatePaymentStatus oid st uid ih

/-! ### Auxiliary lookup-stability lemmas -/

theorem findProduct_eq_of_products {a b : DB} (h : a.products = b.products)
    (pid : Nat) : findProduct a pid = findProduct b pid := by
  unfold findProduct; rw [h]

theorem findOrder_eq_of_orders {a b : DB} (h : a.orders = b.orders)
    (oid : Nat) : findOrder a oid = findOrder b oid := by
  unfold findOrder; rw [h]

/-! ### Concrete sample states used to instantiate the theorems below -/

/-- One catalog item with id 0. -/
def db0 : DB := createCatalogItem DB.empty

/-- Additionally one product, id 1, sell price 10, purchase price 5,
quantity 5; one created history row. -/
def db1 : DB := (createProduct db0 ⟨0, 10, 5, 5⟩ (some 9)).db

/-- Additionally one order, id 2, with a single item (id 3) of quantity 2
on product 1. -/
def dbOrder1 : DB := (createOrder db1 7 [⟨1, 2⟩]).db

/-- Like dbOrder1 but the order has two items, both on product 1, each of
quantity 3 (total 6 exceeds the stock of 5 although each item alone fits). -/
def dbOrder2 : DB := (createOrder db1 7 [⟨1, 3⟩, ⟨1, 3⟩]).db

/-- Like dbOrder1 but the single item requests quantity 10 > stock 5. -/
def dbOrder3 : DB := (createOrder db1 7 [⟨1, 10⟩]).db

theorem reachable_db1 : Reachable db1 :=
  Reachable.newProduct ⟨0, 10, 5, 5⟩ (some 9)
    (Reachable.newCatalogItem Reachable.init) (by decide)

theorem reachable_dbOrder1 : Reachable dbOrder1 :=
  Reachable.orderCreated 7 [⟨1, 2⟩] reachable_db1 (by decide)

theorem reachable_dbOrder2 : Reachable dbOrder2 :=
  Reachable.orderCreated 7 [⟨1, 3⟩, ⟨1, 3⟩] reachable_db1 (by decide)

/-! ### Claim theorems -/

/-- C2: at every state reachable by the public operations, every product's
quantity is non-negative (each quantity-mutating operation either
preserves non-negativity or fails without applying the mutation, which is
exactly how reachability is closed under success and failure states). -/
theorem C2_quantity_nonneg {db : DB} (h : Reachable db) :
    ∀ p ∈ db.products, 0 ≤ p.quantity :=
  (inv_of_reachable h).qtyNonneg

/-- Witness for C2 at a concrete reachable state and product. -/
theorem C2_quantity_nonneg_witness :
    0 ≤ (⟨1, 0, 10, 5, 5⟩ : Product).quantity :=
  C2_quantity_nonneg reachable_dbOrder1 ⟨1, 0, 10, 5, 5⟩ (by decide)

/-- C5 counterexample: a settlement call requesting status canceled
succeeds and leaves the order canceled, so the workflow does implement
transitions other than toward paid. -/
theorem C5_counterexample :
    (updatePaymentStatus dbOrder1 2 PaymentStatus.canceled 9).err = none ∧
    ((updatePaymentStatus dbOrder1 2 PaymentStatus.canceled 9).db.orders.map
      Order.paymentStatus) = [PaymentStatus.canceled] := by decide

/-- C5 amended: a successful settlement call sets the order's
payment_status to exactly the status that was requested, whichever of the
three enum values it is; the workflow itself gates nothing. -/
theorem C5_status_is_requested (db : DB) (oid : Nat) (st : PaymentStatus)
    (uid : Nat) (h : (updatePaymentStatus db oid st uid).err = none) :
    (findOrder (updatePaymentStatus db oid st uid).db oid).map
      Order.paymentStatus = some st := by
  cases ho : findOrder db oid with
  | none =>
    have heq : updatePaymentStatus db oid st uid = ⟨some (Err.orderNotFound oid), db⟩ := by
      simp [updatePaymentStatus, ho]
    rw [heq] at h
    simp at h
  | some o =>
    cases hv : validateStock db (itemsOf db oid) with
    | some e =>
      have heq : updatePaymentStatus db oid st uid = ⟨some e, db⟩ := by
        simp [updatePaymentStatus, ho, hv]
      rw [heq] at h
      simp at h
    | none =>
      cases hr : reduceLoop db (itemsOf db oid) uid with
      | mk err db' =>
        cases err with
        | some e =>
          have heq : updatePaymentStatus db oid st uid = ⟨some e, db'⟩ := by
            simp [updatePaymentStatus, ho, hv, hr]
          rw [heq] at h
          simp at h
        | none =>
          have heq : updatePaymentStatus db oid st uid =
              ⟨none, setOrderStatus db' oid st⟩ := by
            simp [updatePaymentStatus, ho, hv, hr]
          rw [heq]
          have hdbord : db'.orders = db.orders := by
            have h2 := reduceLoop_orders db (itemsOf db oid) uid
            rw [hr] at h2
            exact h2
          have ho' : findOrder db' oid = some o := by
            rw [findOrder_eq_of_orders hdbord oid]
            exact ho
          rw [findOrder_setOrderStatus st ho']
          rfl

/-- Witness for the amended C5 at a concrete successful canceled call. -/
theorem C5_status_is_requested_witness :
    (findOrder (updatePaymentStatus dbOrder1 2 PaymentStatus.canceled 9).db 2).map
      Order.paymentStatus = some PaymentStatus.canceled :=
  C5_status_is_requested dbOrder1 2 PaymentStatus.canceled 9 (by decide)

/-- C1 counterexample: a settlement of an order holding two items of the
same product (3 + 3 against a stock of 5) passes the per-item stock check,
commits the first decrement (quantity 5 down to 2) together with its
history row, then fails on the second decrement; the failed call leaves
the decrement and the history write committed instead of rolling the
whole operation back as a unit. -/
theorem C1_counterexample :
    (updatePaymentStatus dbOrder2 2 PaymentStatus.paid 9).err =
      some Err.validationError ∧
    (updatePaymentStatus dbOrder2 2 PaymentStatus.paid 9).db ≠ dbOrder2 ∧
    (findProduct (updatePaymentStatus dbOrder2 2 PaymentStatus.paid 9).db 1).map
      Product.quantity = some 2 ∧
    (histFor (updatePaymentStatus dbOrder2 2 PaymentStatus.paid 9).db 1).length =
      (histFor dbOrder2 1).length + 1 := by decide

/-- C1 amended: the settlement is not one atomic transaction.  A failing
call never commits the payment-status change (the orders table is
untouched), and its committed state is exactly the state left by running
the decrement loop on some prefix of the order's items: failures at or
before the stock check commit nothing (the prefix is empty), while a
failure during the decrement loop leaves the already-completed decrements
and their history writes committed, because each loop iteration commits
individually. -/
theorem C1_settlement_partial_commit {db : DB} {oid : Nat} {st : PaymentStatus}
    {uid : Nat} {e : Err}
    (h : (updatePaymentStatus db oid st uid).err = some e) :
    (updatePaymentStatus db oid st uid).db.orders = db.orders ∧
    ∃ j ≤ (itemsOf db oid).length,
      (updatePaymentStatus db oid st uid).db =
        (reduceLoop db ((itemsOf db oid).take j) uid).db ∧
      (reduceLoop db ((itemsOf db oid).take j) uid).err = none := by
  cases ho : findOrder db oid with
  | none =>
    have heq : updatePaymentStatus db oid st uid = ⟨some (Err.orderNotFound oid), db⟩ := by
      simp [updatePaymentStatus, ho]
    rw [heq]
    exact ⟨rfl, 0, Nat.zero_le _, rfl, rfl⟩
  | some o =>
    cases hv : validateStock db (itemsOf db oid) with
    | some e' =>
      have heq : updatePaymentStatus db oid st uid = ⟨some e', db⟩ := by
        simp [updatePaymentStatus, ho, hv]
      rw [heq]
      exact ⟨rfl, 0, Nat.zero_le _, rfl, rfl⟩
    | none =>
      cases hr : reduceLoop db (itemsOf db oid) uid with
      | mk err db' =>
        cases err with
        | some e' =>
          have heq : updatePaymentStatus db oid st uid = ⟨some e', db'⟩ := by
            simp [updatePaymentStatus, ho, hv, hr]
          rw [heq]
          constructor
          · have h2 := reduceLoop_orders db (itemsOf db oid) uid
            rw [hr] at h2
            exact h2
          · have h3 : (reduceLoop db (itemsOf db oid) uid).err = some e' := by
              rw [hr]
            obtain ⟨j, hj, hdb, herr⟩ := reduceLoop_err_take h3
            rw [hr] at hdb
            exact ⟨j, hj, hdb, herr⟩
        | none =>
          have heq : updatePaymentStatus db oid st uid =
              ⟨none, setOrderStatus db' oid st⟩ := by
            simp [updatePaymentStatus, ho, hv, hr]
          rw [heq] at h
          simp at h

/-- Witness for the amended C1 at the concrete partially-committed call. -/
theorem C1_settlement_partial_commit_witness :
    (updatePaymentStatus dbOrder2 2 PaymentStatus.paid 9).db.orders =
      dbOrder2.orders ∧
    ∃ j ≤ (itemsOf dbOrder2 2).length,
      (updatePaymentStatus dbOrder2 2 PaymentStatus.paid 9).db =
        (reduceLoop dbOrder2 ((itemsOf dbOrder2 2).take j) 9).db ∧
      (reduceLoop dbOrder2 ((itemsOf dbOrder2 2).take j) 9).err = none :=
  @C1_settlement_partial_commit dbOrder2 2 PaymentStatus.paid 9
    Err.validationError (by decide)

/-- C3: with the order present and foreign keys intact, a settlement call
raises the insufficient-stock error exactly when some item's quantity
exceeds its product's on-hand quantity, the error names the product of the
first offending item in item order, and a call failing at the stock check
leaves the database — in particular every product quantity and the order's
payment_status — completely unchanged. -/
theorem C3_stock_check {db : DB} {oid : Nat} {o : Order} (st : PaymentStatus)
    (uid : Nat) (ho : findOrder db oid = some o)
    (hfk : ∀ it ∈ itemsOf db oid, (findProduct db it.productId).isSome) :
    ((∃ pid, (updatePaymentStatus db oid st uid).err =
        some (Err.insufficientStock pid)) ↔
      ∃ it ∈ itemsOf db oid, itemShort db it = true) ∧
    (∀ it, (itemsOf db oid).find? (itemShort db) = some it →
      updatePaymentStatus db oid st uid =
        ⟨some (Err.insufficientStock it.productId), db⟩) := by
  have hv := validateStock_eq db (itemsOf db oid) hfk
  have hpart2 : ∀ it, (itemsOf db oid).find? (itemShort db) = some it →
      updatePaymentStatus db oid st uid =
        ⟨some (Err.insufficientStock it.productId), db⟩ := by
    intro it hit
    have hvs : validateStock db (itemsOf db oid) =
        some (Err.insufficientStock it.productId) := by
      rw [hv, hit]
      rfl
    simp [updatePaymentStatus, ho, hvs]
  refine ⟨⟨?_, ?_⟩, hpart2⟩
  · rintro ⟨pid, hpid⟩
    cases hfn : (itemsOf db oid).find? (itemShort db) with
    | some it =>
      exact ⟨it, List.mem_of_find?_eq_some hfn, List.find?_some hfn⟩
    | none =>
      exfalso
      have hvs : validateStock db (itemsOf db oid) = none := by
        rw [hv, hfn]
        rfl
      cases hr : reduceLoop db (itemsOf db oid) uid with
      | mk err db' =>
        cases err with
        | some e =>
          have heq : updatePaymentStatus db oid st uid = ⟨some e, db'⟩ := by
            simp [updatePaymentStatus, ho, hvs, hr]
          rw [heq] at hpid
          have he : e = Err.insufficientStock pid := by simpa using hpid
          have h3 : (reduceLoop db (itemsOf db oid) uid).err = some e := by rw [hr]
          have hshape := reduceLoop_err_shape h3
          rcases hshape with h1 | h1 <;> rw [he] at h1 <;> simp at h1
        | none =>
          have heq : updatePaymentStatus db oid st uid =
              ⟨none, setOrderStatus db' oid st⟩ := by
            simp [updatePaymentStatus, ho, hvs, hr]
          rw [heq] at hpid
          simp at hpid
  · rintro ⟨it, hmem, hshort⟩
    have hfs : ((itemsOf db oid).find? (itemShort db)).isSome :=
      List.find?_isSome.mpr ⟨it, hmem, hshort⟩
    obtain ⟨it', hit'⟩ := Option.isSome_iff_exists.mp hfs
    rw [hpart2 it' hit']
    exact ⟨it'.productId, rfl⟩

/-- Witness for C3 at a concrete order whose single item exceeds stock. -/
theorem C3_stock_check_witness :
    ((∃ pid, (updatePaymentStatus dbOrder3 2 PaymentStatus.paid 9).err =
        some (Err.insufficientStock pid)) ↔
      ∃ it ∈ itemsOf dbOrder3 2, itemShort dbOrder3 it = true) ∧
    (∀ it, (itemsOf dbOrder3 2).find? (itemShort dbOrder3) = some it →
      updatePaymentStatus dbOrder3 2 PaymentStatus.paid 9 =
        ⟨some (Err.insufficientStock it.productId), dbOrder3⟩) :=
  @C3_stock_check dbOrder3 2 ⟨2, 7, PaymentStatus.unpaid⟩ PaymentStatus.paid 9
    (by decide) (by decide)

/-- C4: settling an order with one item of quantity q against a product
with stock n at least q succeeds; afterwards the product's quantity is
n - q, exactly one new history row — with action updated and a snapshot
carrying quantity n - q — was prepended for that product, and the order's
payment_status is paid.  The reachability hypothesis supplies the source's
standing property that a product's latest stored snapshot matches its
current state, which is what makes the dedup check write the row. -/
theorem C4_single_item_settlement {db : DB} {oid uid : Nat} {it : OrderItem}
    {p : Product} (hre : Reachable db) (ho : (findOrder db oid).isSome)
    (hits : itemsOf db oid = [it]) (hp : findProduct db it.productId = some p)
    (hq1 : 1 ≤ it.quantity) (hqn : it.quantity ≤ p.quantity) :
    (updatePaymentStatus db oid PaymentStatus.paid uid).err = none ∧
    findProduct (updatePaymentStatus db oid PaymentStatus.paid uid).db
      it.productId = some { p with quantity := p.quantity - it.quantity } ∧
    histFor (updatePaymentStatus db oid PaymentStatus.paid uid).db p.id =
      ⟨some p.id, some uid, ProductAction.updated,
        snapOf { p with quantity := p.quantity - it.quantity }⟩ :: histFor db p.id ∧
    (findOrder (updatePaymentStatus db oid PaymentStatus.paid uid).db oid).map
      Order.paymentStatus = some PaymentStatus.paid := by
  obtain ⟨o, ho'⟩ := Option.isSome_iff_exists.mp ho
  have hpid : p.id = it.productId := findProduct_id hp
  have hfp : findProduct db p.id = some p := by rw [hpid]; exact hp
  have hmem : p ∈ db.products := findProduct_mem hp
  have hls : lastSnapFor db p.id = some (snapOf p) :=
    (inv_of_reachable hre).lastSnap p hmem
  have hnl : ¬ p.quantity < it.quantity := not_lt.mpr hqn
  have hnq : ¬ p.quantity - it.quantity < 0 := by omega
  have hvs : validateStock db (itemsOf db oid) = none := by
    rw [hits]
    simp [validateStock, hp, hnl]
  have hsne : snapOf { p with quantity := p.quantity - it.quantity } ≠ snapOf p := by
    intro hcon
    have h2 := congrArg Snapshot.quantity hcon
    simp [snapOf] at h2
    omega
  have hlsne : lastSnapFor
      (setProduct db { p with quantity := p.quantity - it.quantity })
      ({ p with quantity := p.quantity - it.quantity } : Product).id ≠
      some (snapOf { p with quantity := p.quantity - it.quantity }) := by
    rw [lastSnapFor_setProduct]
    show lastSnapFor db p.id ≠ _
    rw [hls]
    intro hcon
    exact hsne (Option.some.inj hcon).symm
  have hwrite : updateProductApply db p
      ⟨none, none, none, some (p.quantity - it.quantity)⟩ (some uid) =
      ⟨none, { setProduct db { p with quantity := p.quantity - it.quantity } with
        history := ⟨some p.id, some uid, ProductAction.updated,
          snapOf { p with quantity := p.quantity - it.quantity }⟩ :: db.history }⟩ := by
    simp only [updateProductApply, applyProductUpdate, Option.getD_none, Option.getD_some]
    rw [saveHistory_updated_write (some uid) hlsne]
    rfl
  have hred : reduceLoop db (itemsOf db oid) uid =
      ⟨none, { setProduct db { p with quantity := p.quantity - it.quantity } with
        history := ⟨some p.id, some uid, ProductAction.updated,
          snapOf { p with quantity := p.quantity - it.quantity }⟩ :: db.history }⟩ := by
    rw [hits]
    simp only [reduceLoop, hp, if_neg hnq]
    rw [updateProduct_no_catalog _ (some uid) hfp rfl, hwrite]
  obtain ⟨X, hX, hXprod, hXhist, hXord⟩ :
      ∃ X, updatePaymentStatus db oid PaymentStatus.paid uid =
          ⟨none, setOrderStatus X oid PaymentStatus.paid⟩ ∧
        X.products =
          (setProduct db { p with quantity := p.quantity - it.quantity }).products ∧
        X.history = ⟨some p.id, some uid, ProductAction.updated,
          snapOf { p with quantity := p.quantity - it.quantity }⟩ :: db.history ∧
        X.orders = db.orders := by
    refine ⟨{ setProduct db { p with quantity := p.quantity - it.quantity } with
      history := ⟨some p.id, some uid, ProductAction.updated,
        snapOf { p with quantity := p.quantity - it.quantity }⟩ :: db.history },
      ?_, rfl, rfl, rfl⟩
    simp [updatePaymentStatus, ho', hvs, hred]
  rw [hX]
  refine ⟨rfl, ?_, ?_, ?_⟩
  · show findProduct (setOrderStatus X oid PaymentStatus.paid) it.productId = _
    rw [findProduct_eq_of_products (setOrderStatus_products X oid PaymentStatus.paid)
      it.productId]
    rw [findProduct_eq_of_products hXprod it.productId]
    exact findProduct_setProduct hpid hp
  · show histFor (setOrderStatus X oid PaymentStatus.paid) p.id = _
    have hh : (setOrderStatus X oid PaymentStatus.paid).history =
        (⟨some p.id, some uid, ProductAction.updated,
          snapOf { p with quantity := p.quantity - it.quantity }⟩ : HistRow) ::
          db.history := by
      rw [setOrderStatus_history]
      exact hXhist
    rw [histFor_cons _ db _ hh p.id, if_pos rfl]
  · show (findOrder (setOrderStatus X oid PaymentStatus.paid) oid).map
      Order.paymentStatus = _
    have ho2 : findOrder X oid = some o := by
      rw [findOrder_eq_of_orders hXord oid]
      exact ho'
    rw [findOrder_setOrderStatus PaymentStatus.paid ho2]
    rfl

/-- Witness for C4 at the concrete one-item order (quantity 2, stock 5). -/
theorem C4_single_item_settlement_witness :
    (updatePaymentStatus dbOrder1 2 PaymentStatus.paid 9).err = none ∧
    findProduct (updatePaymentStatus dbOrder1 2 PaymentStatus.paid 9).db 1 =
      some { id := 1, catalogItemId := 0, sellPrice := 10, purchasePrice := 5,
             quantity := 3 } ∧
    histFor (updatePaymentStatus dbOrder1 2 PaymentStatus.paid 9).db 1 =
      ⟨some 1, some 9, ProductAction.updated,
        snapOf { id := 1, catalogItemId := 0, sellPrice := 10, purchasePrice := 5,
                 quantity := 3 }⟩ :: histFor dbOrder1 1 ∧
    (findOrder (updatePaymentStatus dbOrder1 2 PaymentStatus.paid 9).db 2).map
      Order.paymentStatus = some PaymentStatus.paid :=
  @C4_single_item_settlement dbOrder1 2 9 ⟨3, 2, 1, 2, 10⟩
    ⟨1, 0, 10, 5, 5⟩ reachable_dbOrder1 (by decide) (by decide) (by decide)
    (by decide) (by decide)

/-- A per-product history list all of whose rows except the oldest carry
action updated filters (on action updated) to itself or to itself without
the oldest row. -/
theorem filter_updated_of_shape {l : List HistRow}
    (hshape : ∀ r ∈ l.dropLast, r.action = ProductAction.updated) :
    l.filter (fun r => decide (r.action = ProductAction.updated)) = l ∨
    l.filter (fun r => decide (r.action = ProductAction.updated)) = l.dropLast := by
  induction l with
  | nil => left; rfl
  | cons a t ih =>
    cases t with
    | nil =>
      by_cases ha : a.action = ProductAction.updated
      · left; simp [ha]
      · right; simp [ha]
    | cons b t2 =>
      have ha : a.action = ProductAction.updated := by
        apply hshape
        rw [List.dropLast_cons_of_ne_nil (by simp)]
        simp
      have hsub : ∀ r ∈ (b :: t2).dropLast, r.action = ProductAction.updated := by
        intro r hr
        apply hshape
        rw [List.dropLast_cons_of_ne_nil (by simp)]
        exact List.mem_cons_of_mem a hr
      rcases ih hsub with hft | hft
      · left
        rw [List.filter_cons, if_pos (by simpa using ha), hft]
      · right
        rw [List.filter_cons, if_pos (by simpa using ha), hft,
          List.dropLast_cons_of_ne_nil (show b :: t2 ≠ [] by simp)]

/-- C6: the history recorder writes a row for action updated exactly when
the new snapshot differs from the product's most recent stored snapshot
(a no-op otherwise), always writes for action created, and consequently at
every reachable state the updated-action history rows of any product never
contain two consecutive rows with identical snapshots. -/
theorem C6_history_dedup (db db2 : DB) (p : Product) (uid : Option Nat)
    (pid : Nat) (hre : Reachable db2) :
    ((saveHistory db p ProductAction.updated uid).history = db.history ↔
      lastSnapFor db p.id = some (snapOf p)) ∧
    (saveHistory db p ProductAction.created uid).history =
      ⟨some p.id, uid, ProductAction.created, snapOf p⟩ :: db.history ∧
    ((histFor db2 pid).filter
        (fun r => decide (r.action = ProductAction.updated))).Chain'
      (fun a b => a.snapshot ≠ b.snapshot) := by
  refine ⟨⟨?_, ?_⟩, ?_, ?_⟩
  · intro heq
    by_cases hc : lastSnapFor db p.id = some (snapOf p)
    · exact hc
    · exfalso
      rw [saveHistory_updated_write uid hc] at heq
      simpa using congrArg List.length heq
  · intro hc
    rw [saveHistory_updated_skip uid hc]
  · rw [saveHistory_created]
  · have hinv := inv_of_reachable hre
    rcases filter_updated_of_shape (hinv.histShape pid) with hft | hft
    · rw [hft]
      exact hinv.histChain pid
    · rw [hft, List.dropLast_eq_take]
      exact (hinv.histChain pid).take _

/-- Witness for C6 at a concrete state and product. -/
theorem C6_history_dedup_witness :
    ((saveHistory db1 ⟨1, 0, 10, 5, 5⟩ ProductAction.updated (some 9)).history =
        db1.history ↔
      lastSnapFor db1 1 = some (snapOf ⟨1, 0, 10, 5, 5⟩)) ∧
    (saveHistory db1 ⟨1, 0, 10, 5, 5⟩ ProductAction.created (some 9)).history =
      ⟨some 1, some 9, ProductAction.created, snapOf ⟨1, 0, 10, 5, 5⟩⟩ :: db1.history ∧
    ((histFor dbOrder2 1).filter
        (fun r => decide (r.action = ProductAction.updated))).Chain'
      (fun a b => a.snapshot ≠ b.snapshot) :=
  C6_history_dedup db1 dbOrder2 ⟨1, 0, 10, 5, 5⟩ (some 9) 1 reachable_dbOrder2

/-! ### Order-update machinery -/

theorem applyQuantMap_ids (cur : List OrderItem) (u : OrderItemUpdateV) :
    (cur.map (fun it =>
      if it.id = u.itemId then { it with quantity := u.quantity } else it)).map
      OrderItem.id = cur.map OrderItem.id := by
  simp only [List.map_map]
  apply List.map_congr_left
  intro q _
  by_cases hid : q.id = u.itemId <;> simp [Function.comp, hid]

theorem applyQuantMap_orderIds (cur : List OrderItem) (u : OrderItemUpdateV) :
    (cur.map (fun it =>
      if it.id = u.itemId then { it with quantity := u.quantity } else it)).map
      OrderItem.orderId = cur.map OrderItem.orderId := by
  simp only [List.map_map]
  apply List.map_congr_left
  intro q _
  by_cases hid : q.id = u.itemId <;> simp [Function.comp, hid]

/-- A quantity-update list containing an id that belongs to none of the
looked-up items makes the update phase fail with the 404 naming one such
id and the order id. -/
theorem applyItemUpdates_err_of_unknown {cur : List OrderItem}
    {ups : List OrderItemUpdateV} (oid : Nat)
    (h : ∃ u ∈ ups, u.itemId ∉ cur.map OrderItem.id) :
    ∃ i, applyItemUpdates cur ups oid = Except.error (Err.orderItemNotFound i oid) ∧
      i ∉ cur.map OrderItem.id := by
  induction ups generalizing cur with
  | nil => simp at h
  | cons u0 rest ih =>
    by_cases hf : (cur.find? (fun it => decide (it.id = u0.itemId))).isSome
    · obtain ⟨u, hu, hnotin⟩ := h
      rcases List.mem_cons.mp hu with rfl | hu
      · obtain ⟨it0, hit0⟩ := Option.isSome_iff_exists.mp hf
        have hmem := List.mem_of_find?_eq_some hit0
        have hid : it0.id = u.itemId := by simpa using List.find?_some hit0
        exact absurd (List.mem_map.mpr ⟨it0, hmem, hid⟩) hnotin
      · have h2 : ∃ u' ∈ rest, u'.itemId ∉
            (cur.map (fun it =>
              if it.id = u0.itemId then { it with quantity := u0.quantity }
              else it)).map OrderItem.id := by
          rw [applyQuantMap_ids]
          exact ⟨u, hu, hnotin⟩
        obtain ⟨i, hi, hni⟩ := ih h2
        rw [applyQuantMap_ids] at hni
        refine ⟨i, ?_, hni⟩
        simp only [applyItemUpdates]
        rw [if_pos hf]
        exact hi
    · refine ⟨u0.itemId, ?_, ?_⟩
      · simp only [applyItemUpdates]
        rw [if_neg hf]
      · intro hin
        apply hf
        obtain ⟨it0, hmem, hid⟩ := List.mem_map.mp hin
        exact List.find?_isSome.mpr ⟨it0, hmem, by simpa using hid⟩

/-- When every update id belongs to the looked-up items, the update phase
succeeds and preserves the multiset of item ids and order ids. -/
theorem applyItemUpdates_ok {cur : List OrderItem} {ups : List OrderItemUpdateV}
    (oid : Nat) (h : ∀ u ∈ ups, u.itemId ∈ cur.map OrderItem.id) :
    ∃ its, applyItemUpdates cur ups oid = Except.ok its ∧
      its.map OrderItem.id = cur.map OrderItem.id ∧
      its.map OrderItem.orderId = cur.map OrderItem.orderId := by
  induction ups generalizing cur with
  | nil => exact ⟨cur, rfl, rfl, rfl⟩
  | cons u0 rest ih =>
    have hf : (cur.find? (fun it => decide (it.id = u0.itemId))).isSome := by
      obtain ⟨it0, hmem, hid⟩ := List.mem_map.mp (h u0 (by simp))
      exact List.find?_isSome.mpr ⟨it0, hmem, by simpa using hid⟩
    have h2 : ∀ u ∈ rest, u.itemId ∈
        (cur.map (fun it =>
          if it.id = u0.itemId then { it with quantity := u0.quantity }
          else it)).map OrderItem.id := by
      rw [applyQuantMap_ids]
      exact fun u hu => h u (List.mem_cons_of_mem _ hu)
    obtain ⟨its, hits, hid2, hord2⟩ := ih h2
    refine ⟨its, ?_, ?_, ?_⟩
    · simp only [applyItemUpdates]
      rw [if_pos hf]
      exact hits
    · rw [hid2, applyQuantMap_ids]
    · rw [hord2, applyQuantMap_orderIds]

/-- A new-item list containing a missing product makes the append phase
fail with the 404 naming a missing product. -/
theorem buildItems_err_of_missing {db : DB} {ds : List OrderItemCreateV}
    (oid startId : Nat) (h : ∃ d ∈ ds, findProduct db d.productId = none) :
    ∃ pid, buildItems db oid startId ds = Except.error (Err.productNotFound pid) ∧
      findProduct db pid = none := by
  induction ds generalizing startId with
  | nil => simp at h
  | cons d0 rest ih =>
    cases hf : findProduct db d0.productId with
    | none => exact ⟨d0.productId, by simp only [buildItems, hf], hf⟩
    | some p =>
      obtain ⟨d, hd, hdn⟩ := h
      rcases List.mem_cons.mp hd with rfl | hd
      · rw [hf] at hdn
        exact absurd hdn (by simp)
      · obtain ⟨pid, hpid, hpn⟩ := ih (startId + 1) ⟨d, hd, hdn⟩
        refine ⟨pid, ?_, hpn⟩
        simp only [buildItems, hf]
        rw [hpid]
        rfl

/-- When every new item's product exists, the append phase succeeds and
every built item carries the order's id. -/
theorem buildItems_ok_of_found {db : DB} {ds : List OrderItemCreateV}
    (oid startId : Nat) (h : ∀ d ∈ ds, (findProduct db d.productId).isSome) :
    ∃ its, buildItems db oid startId ds = Except.ok its ∧
      ∀ it ∈ its, it.orderId = oid := by
  induction ds generalizing startId with
  | nil => exact ⟨[], rfl, by simp⟩
  | cons d0 rest ih =>
    obtain ⟨p, hp⟩ := Option.isSome_iff_exists.mp (h d0 (by simp))
    obtain ⟨its, hits, hord⟩ := ih (startId + 1)
      (fun d hd => h d (List.mem_cons_of_mem _ hd))
    refine ⟨⟨startId, oid, p.id, d0.quantity, p.sellPrice⟩ :: its, ?_, ?_⟩
    · simp only [buildItems, hp]
      rw [hits]
      rfl
    · intro it hit
      rcases List.mem_cons.mp hit with rfl | hit
      · rfl
      · exact hord it hit

/-- Failures of updateOrder happen before its one commit, so they leave
the committed state unchanged. -/
theorem updateOrder_err_db {db : DB} {oid : Nat} {upd : OrderUpdateV} {e : Err}
    (h : (updateOrder db oid upd).err = some e) :
    (updateOrder db oid upd).db = db := by
  cases ho : findOrder db oid with
  | none => simp [updateOrder, ho]
  | some o =>
    cases ha : applyItemUpdates (itemsOf db oid) upd.updateItems oid with
    | error e' => simp [updateOrder, ho, ha]
    | ok its =>
      cases hb : buildItems db oid db.nextId upd.newItems with
      | error e' => simp [updateOrder, ho, ha, hb]
      | ok newIts =>
        have hnone : (updateOrder db oid upd).err = none := by
          simp [updateOrder, ho, ha, hb]
        rw [hnone] at h
        simp at h

/-- Successful updateOrder: the order's items afterwards are exactly the
quantity-updated items that were not listed for deletion, followed by the
newly built items. -/
theorem updateOrder_ok_items {db : DB} {oid : Nat} {upd : OrderUpdateV}
    {o : Order} {its newIts : List OrderItem}
    (ho : findOrder db oid = some o)
    (ha : applyItemUpdates (itemsOf db oid) upd.updateItems oid = Except.ok its)
    (hb : buildItems db oid db.nextId upd.newItems = Except.ok newIts)
    (hordIds : its.map OrderItem.orderId = (itemsOf db oid).map OrderItem.orderId)
    (hbord : ∀ it ∈ newIts, it.orderId = oid) :
    (updateOrder db oid upd).err = none ∧
    itemsOf (updateOrder db oid upd).db oid =
      its.filter (fun it => decide (it.id ∉ upd.deleteItemIds)) ++ newIts := by
  have hitsord : ∀ x ∈ its, x.orderId = oid := by
    intro x hx
    have hmap : x.orderId ∈ its.map OrderItem.orderId := List.mem_map.mpr ⟨x, hx, rfl⟩
    rw [hordIds] at hmap
    obtain ⟨y, hy, hyx⟩ := List.mem_map.mp hmap
    have hyf := List.mem_filter.mp hy
    have hyo : y.orderId = oid := by simpa using hyf.2
    rw [← hyx, hyo]
  have heq : updateOrder db oid upd =
      ⟨none,
        { db with
          orderItems :=
            db.orderItems.filter (fun it => decide (it.orderId ≠ oid)) ++
            its.filter (fun it => !upd.deleteItemIds.contains it.id) ++ newIts
          nextId := db.nextId + upd.newItems.length }⟩ := by
    simp [updateOrder, ho, ha, hb]
  rw [heq]
  refine ⟨rfl, ?_⟩
  show (db.orderItems.filter (fun it => decide (it.orderId ≠ oid)) ++
      its.filter (fun it => !upd.deleteItemIds.contains it.id) ++ newIts).filter
      (fun it => decide (it.orderId = oid)) = _
  rw [List.filter_append, List.filter_append]
  have h1 : (db.orderItems.filter (fun it => decide (it.orderId ≠ oid))).filter
      (fun it => decide (it.orderId = oid)) = [] := by
    rw [List.filter_filter]
    apply List.filter_eq_nil_iff.mpr
    intro a _
    simp
  have h2 : (its.filter (fun it => !upd.deleteItemIds.contains it.id)).filter
      (fun it => decide (it.orderId = oid)) =
      its.filter (fun it => decide (it.id ∉ upd.deleteItemIds)) := by
    rw [List.filter_eq_self.mpr]
    · apply List.filter_congr
      intro a _
      simp [List.elem_iff]
    · intro a ha2
      have := List.mem_filter.mp ha2
      simp [hitsord a this.1]
  have h3 : newIts.filter (fun it => decide (it.orderId = oid)) = newIts := by
    apply List.filter_eq_self.mpr
    intro a ha3
    simp [hbord a ha3]
  rw [h1, h2, h3]
  rfl

/-- C7: order update applies deletions, then quantity updates (looked up
against the order's pre-deletion items), then new-item appends; an update
naming an id outside the order fails with the item/order-identifying 404,
a new item whose product is missing fails with the product 404, any
failure leaves the committed state unchanged, and on success the order's
items are the quantity-updated survivors of deletion followed by the
appended items. -/
theorem C7_order_update {db : DB} {oid : Nat} (upd : OrderUpdateV) {o : Order}
    (ho : findOrder db oid = some o) :
    (∀ e, (updateOrder db oid upd).err = some e → (updateOrder db oid upd).db = db) ∧
    ((∃ u ∈ upd.updateItems, u.itemId ∉ (itemsOf db oid).map OrderItem.id) →
      ∃ i, (updateOrder db oid upd).err = some (Err.orderItemNotFound i oid) ∧
        i ∉ (itemsOf db oid).map OrderItem.id) ∧
    ((∀ u ∈ upd.updateItems, u.itemId ∈ (itemsOf db oid).map OrderItem.id) →
      (∃ d ∈ upd.newItems, findProduct db d.productId = none) →
      ∃ pid, (updateOrder db oid upd).err = some (Err.productNotFound pid) ∧
        findProduct db pid = none) ∧
    ((∀ u ∈ upd.updateItems, u.itemId ∈ (itemsOf db oid).map OrderItem.id) →
      (∀ d ∈ upd.newItems, (findProduct db d.productId).isSome) →
      (updateOrder db oid upd).err = none ∧
      ∃ its, applyItemUpdates (itemsOf db oid) upd.updateItems oid = Except.ok its ∧
        ∃ newIts, buildItems db oid db.nextId upd.newItems = Except.ok newIts ∧
          itemsOf (updateOrder db oid upd).db oid =
            its.filter (fun it => decide (it.id ∉ upd.deleteItemIds)) ++ newIts) := by
  refine ⟨fun e he => updateOrder_err_db he, ?_, ?_, ?_⟩
  · intro hunk
    obtain ⟨i, hi, hni⟩ := applyItemUpdates_err_of_unknown oid hunk
    refine ⟨i, ?_, hni⟩
    simp [updateOrder, ho, hi]
  · intro hall hmiss
    obtain ⟨its, ha, _, _⟩ := applyItemUpdates_ok oid hall
    obtain ⟨pid, hb, hpn⟩ := buildItems_err_of_missing oid db.nextId hmiss
    refine ⟨pid, ?_, hpn⟩
    simp [updateOrder, ho, ha, hb]
  · intro hall hfound
    obtain ⟨its, ha, _, hord2⟩ := applyItemUpdates_ok oid hall
    obtain ⟨newIts, hb, hbord⟩ := buildItems_ok_of_found oid db.nextId hfound
    obtain ⟨herr, hshape⟩ := updateOrder_ok_items ho ha hb hord2 hbord
    exact ⟨herr, its, ha, newIts, hb, hshape⟩

/-- Witness for C7 at a concrete order. -/
theorem C7_order_update_witness :
    (∀ e, (updateOrder dbOrder1 2 ⟨[3], [⟨1, 1⟩], [⟨3, 4⟩]⟩).err = some e →
      (updateOrder dbOrder1 2 ⟨[3], [⟨1, 1⟩], [⟨3, 4⟩]⟩).db = dbOrder1) ∧
    ((∃ u ∈ [(⟨3, 4⟩ : OrderItemUpdateV)],
        u.itemId ∉ (itemsOf dbOrder1 2).map OrderItem.id) →
      ∃ i, (updateOrder dbOrder1 2 ⟨[3], [⟨1, 1⟩], [⟨3, 4⟩]⟩).err =
          some (Err.orderItemNotFound i 2) ∧
        i ∉ (itemsOf dbOrder1 2).map OrderItem.id) ∧
    ((∀ u ∈ [(⟨3, 4⟩ : OrderItemUpdateV)],
        u.itemId ∈ (itemsOf dbOrder1 2).map OrderItem.id) →
      (∃ d ∈ [(⟨1, 1⟩ : OrderItemCreateV)], findProduct dbOrder1 d.productId = none) →
      ∃ pid, (updateOrder dbOrder1 2 ⟨[3], [⟨1, 1⟩], [⟨3, 4⟩]⟩).err =
          some (Err.productNotFound pid) ∧
        findProduct dbOrder1 pid = none) ∧
    ((∀ u ∈ [(⟨3, 4⟩ : OrderItemUpdateV)],
        u.itemId ∈ (itemsOf dbOrder1 2).map OrderItem.id) →
      (∀ d ∈ [(⟨1, 1⟩ : OrderItemCreateV)],
        (findProduct dbOrder1 d.productId).isSome) →
      (updateOrder dbOrder1 2 ⟨[3], [⟨1, 1⟩], [⟨3, 4⟩]⟩).err = none ∧
      ∃ its, applyItemUpdates (itemsOf dbOrder1 2) [⟨3, 4⟩] 2 = Except.ok its ∧
        ∃ newIts, buildItems dbOrder1 2 dbOrder1.nextId [⟨1, 1⟩] = Except.ok newIts ∧
          itemsOf (updateOrder dbOrder1 2 ⟨[3], [⟨1, 1⟩], [⟨3, 4⟩]⟩).db 2 =
            its.filter (fun it => decide (it.id ∉ [3])) ++ newIts) :=
  @C7_order_update dbOrder1 2 ⟨[3], [⟨1, 1⟩], [⟨3, 4⟩]⟩
    ⟨2, 7, PaymentStatus.unpaid⟩ (by decide)

/-- C9: an order-update whose deletion list contains an id that belongs to
no item of the order succeeds — the unknown id is silently ignored — and
the order's items afterwards are exactly its items whose ids were not
listed for deletion, so items not named are untouched. -/
theorem C9_delete_unknown_ignored {db : DB} {oid : Nat} {o : Order}
    (ds : List Nat) (x : Nat) (ho : findOrder db oid = some o) (hx : x ∈ ds)
    (hnx : x ∉ (itemsOf db oid).map OrderItem.id) :
    (updateOrder db oid ⟨ds, [], []⟩).err = none ∧
    itemsOf (updateOrder db oid ⟨ds, [], []⟩).db oid =
      (itemsOf db oid).filter (fun it => decide (it.id ∉ ds)) := by
  obtain ⟨herr, hshape⟩ :=
    @updateOrder_ok_items db oid ⟨ds, [], []⟩ o (itemsOf db oid) [] ho rfl rfl rfl
      (by simp)
  exact ⟨herr, by rw [hshape, List.append_nil]⟩

/-- Witness for C9: delete a non-existent item id 999 from the one-item
order. -/
theorem C9_delete_unknown_ignored_witness :
    (updateOrder dbOrder1 2 ⟨[999], [], []⟩).err = none ∧
    itemsOf (updateOrder dbOrder1 2 ⟨[999], [], []⟩).db 2 =
      (itemsOf dbOrder1 2).filter (fun it => decide (it.id ∉ [999])) :=
  @C9_delete_unknown_ignored dbOrder1 2 ⟨2, 7, PaymentStatus.unpaid⟩ [999] 999
    (by decide) (by decide) (by decide)

/-- C10: when the same item id appears both in the deletion list and in
the quantity-update list (all update ids belonging to the order), the call
does not fail — the update phase looks the id up in the item map built
before deletions ran — and the deletion prevails: the id is absent from
the order afterwards. -/
theorem C10_delete_beats_update {db : DB} {oid : Nat} {o : Order}
    (ds : List Nat) (us : List OrderItemUpdateV) (i : Nat)
    (ho : findOrder db oid = some o)
    (hmem : i ∈ (itemsOf db oid).map OrderItem.id) (hdel : i ∈ ds)
    (hup : ∃ u ∈ us, u.itemId = i)
    (hall : ∀ u ∈ us, u.itemId ∈ (itemsOf db oid).map OrderItem.id) :
    (updateOrder db oid ⟨ds, [], us⟩).err = none ∧
    ∀ it ∈ itemsOf (updateOrder db oid ⟨ds, [], us⟩).db oid, it.id ≠ i := by
  obtain ⟨its, ha, _, hord2⟩ := applyItemUpdates_ok oid hall
  obtain ⟨herr, hshape⟩ :=
    @updateOrder_ok_items db oid ⟨ds, [], us⟩ o its [] ho ha rfl hord2 (by simp)
  refine ⟨herr, ?_⟩
  intro it hit
  rw [hshape, List.append_nil] at hit
  have hfm := List.mem_filter.mp hit
  have hni : it.id ∉ ds := by simpa using hfm.2
  intro hcon
  rw [hcon] at hni
  exact hni hdel

/-- Witness for C10: item 3 is deleted and quantity-updated in one call. -/
theorem C10_delete_beats_update_witness :
    (updateOrder dbOrder1 2 ⟨[3], [], [⟨3, 7⟩]⟩).err = none ∧
    ∀ it ∈ itemsOf (updateOrder dbOrder1 2 ⟨[3], [], [⟨3, 7⟩]⟩).db 2, it.id ≠ 3 :=
  @C10_delete_beats_update dbOrder1 2 ⟨2, 7, PaymentStatus.unpaid⟩ [3] [⟨3, 7⟩] 3
    (by decide) (by decide) (by decide) (by decide) (by decide)

/-- C8: an order item's price is the backing product's sell_price captured
when the item is created; a later product update — in particular a price
change — leaves the order-item rows, and therefore the stored price,
untouched. -/
theorem C8_price_snapshot {db : DB} {pid : Nat} {p : Product} (uid uid' : Nat)
    (q : Int) (pd : ProductUpdateV) (hp : findProduct db pid = some p) :
    (createOrder db uid [⟨pid, q⟩]).err = none ∧
    (⟨db.nextId + 1, db.nextId, p.id, q, p.sellPrice⟩ : OrderItem) ∈
      (createOrder db uid [⟨pid, q⟩]).db.orderItems ∧
    (updateProduct (createOrder db uid [⟨pid, q⟩]).db pid pd (some uid')).db.orderItems =
      (createOrder db uid [⟨pid, q⟩]).db.orderItems := by
  have hb : buildItems db db.nextId (db.nextId + 1) [⟨pid, q⟩] =
      Except.ok [⟨db.nextId + 1, db.nextId, p.id, q, p.sellPrice⟩] := by
    simp only [buildItems, hp]
    rfl
  have heq : createOrder db uid [⟨pid, q⟩] =
      ⟨none,
        { db with
          orders := db.orders ++ [⟨db.nextId, uid, PaymentStatus.unpaid⟩]
          orderItems := db.orderItems ++
            [⟨db.nextId + 1, db.nextId, p.id, q, p.sellPrice⟩]
          nextId := db.nextId + 1 + 1 }⟩ := by
    simp [createOrder, hb]
  rw [heq]
  refine ⟨rfl, ?_, updateProduct_orderItems _ pid pd (some uid')⟩
  simp

/-- Witness for C8: create an order on product 1 priced 10, then raise the
sell price to 20; the stored item still carries price 10. -/
theorem C8_price_snapshot_witness :
    (createOrder db1 7 [⟨1, 2⟩]).err = none ∧
    (⟨3, 2, 1, 2, 10⟩ : OrderItem) ∈ (createOrder db1 7 [⟨1, 2⟩]).db.orderItems ∧
    (updateProduct (createOrder db1 7 [⟨1, 2⟩]).db 1 ⟨none, some 20, none, none⟩
      (some 9)).db.orderItems = (createOrder db1 7 [⟨1, 2⟩]).db.orderItems :=
  @C8_price_snapshot db1 1 ⟨1, 0, 10, 5, 5⟩ 7 9 2 ⟨none, some 20, none, none⟩
    (by decide)

end OrdersApp
